import Mathlib

/-!
# Persistence layer of the relayer (`db/boltdb.go`)

A shallow embedding of the `BoltDB` wrapper: the three buckets
(`StarcoinTxCheck`, `StarcoinTxRetry`, `Height`) are ordered lists of
key/value byte strings, every public method is a function from the database
content to a result and the content afterwards.

The embedded engine (`github.com/boltdb/bolt`), the hexadecimal codec
(`encoding/hex`), the byte order helper (`encoding/binary`), the text helpers
(`strings.Contains`, `path.Join`) and the JSON serialiser (`encoding/json`)
live outside the repository.  All but the last are transcribed from their
documented behaviour; the serialiser is a parameter (`Codec`).

Conventions:

* a bucket lists its pairs in cursor order; the engine keeps the keys strictly
  ascending (`Bucket.Ordered`, `BoltDB.WF`), every call preserves that
  (`Op.apply_WF`), and statements that depend on it assume it;
* a method returns the database afterwards together with its Go results; a
  Go `error` is an `Option Error`, a Go pair `(value, error)` an `Except`;
* storage faults of the engine (I/O) and the reader-writer lock are outside
  the model: `db.Update` fails only when its closure does;
* a Go `string` is a Lean `String`; a character outside ASCII stands for bytes
  that are no hexadecimal digits either.
-/

namespace BoltRelayer

/-! ## Bytes, errors -/

/-- One Go `byte`. -/
abbrev Byte := Fin 256

/-- A Go `[]byte`. -/
abbrev Bytes := List Byte

/-- The error values the wrapper can hand back.  `indexOutOfRange` stands for
the run-time fault of `binary.LittleEndian.Uint32` on fewer than four bytes. -/
inductive Error where
  | hexInvalidByte (c : Char)
  | hexErrLength
  | ErrKeyRequired
  | ErrKeyTooLarge
  | ErrValueTooLarge
  | jsonError (code : Nat)
  | maxNum
  | notImplemented
  | indexOutOfRange
  | ErrBucketNameRequired
  deriving DecidableEq

/-- The two errors of `hex.DecodeString`. -/
def Error.isHexError : Error → Bool
  | .hexInvalidByte _ => true
  | .hexErrLength => true
  | _ => false

/-- `const BOLTDB_MAX_NUM = 1000`. -/
def BOLTDB_MAX_NUM : Nat := 1000

/-! ## `encoding/hex` -/

/-- The entry of `reverseHexTable` for one character: its value when it is a
hexadecimal digit of either case. -/
def fromHexChar (c : Char) : Option Nat :=
  let n := c.toNat
  if 48 ≤ n ∧ n ≤ 57 then some (n - 48)
  else if 97 ≤ n ∧ n ≤ 102 then some (n - 97 + 10)
  else if 65 ≤ n ∧ n ≤ 70 then some (n - 65 + 10)
  else none

/-- The loop of `hex.Decode`: pairs of digits from the left, the first bad
character wins, a dangling last digit is `ErrLength`. -/
def hexDecode : List Char → Except Error Bytes
  | [] => .ok []
  | [p] =>
    match fromHexChar p with
    | none => .error (.hexInvalidByte p)
    | some _ => .error .hexErrLength
  | p :: q :: rest =>
    match fromHexChar p with
    | none => .error (.hexInvalidByte p)
    | some a =>
      match fromHexChar q with
      | none => .error (.hexInvalidByte q)
      | some b =>
        match hexDecode rest with
        | .ok bs => .ok (⟨(a * 16 + b) % 256, Nat.mod_lt _ (by decide)⟩ :: bs)
        | .error err => .error err

/-- `hex.DecodeString`. -/
def DecodeString (s : String) : Except Error Bytes :=
  hexDecode s.data

/-- One character of the table `"0123456789abcdef"`. -/
def hexDigit (n : Nat) : Char :=
  if n < 10 then Char.ofNat (48 + n) else Char.ofNat (87 + n)

/-- The loop of `hex.Encode`: two lowercase digits per byte. -/
def hexEncode : Bytes → List Char
  | [] => []
  | b :: bs => hexDigit (b.val / 16) :: hexDigit (b.val % 16) :: hexEncode bs

/-- `hex.EncodeToString`. -/
def EncodeToString (bs : Bytes) : String :=
  String.mk (hexEncode bs)

/-- A hexadecimal digit of either case. -/
def isHexChar (c : Char) : Prop :=
  (48 ≤ c.toNat ∧ c.toNat ≤ 57) ∨ (97 ≤ c.toNat ∧ c.toNat ≤ 102) ∨ (65 ≤ c.toNat ∧ c.toNat ≤ 70)

instance (c : Char) : Decidable (isHexChar c) := by
  unfold isHexChar; exact inferInstance

/-- Valid hexadecimal text in the words of the specification: an even number
of characters, every one a hexadecimal digit. -/
def ValidHex (s : String) : Prop :=
  s.data.length % 2 = 0 ∧ ∀ c ∈ s.data, isHexChar c

instance (s : String) : Decidable (ValidHex s) := by
  unfold ValidHex; exact inferInstance

/-! ## `encoding/binary` -/

/-- `binary.LittleEndian.PutUint32` into a fresh four-byte slice. -/
def PutUint32 (h : Nat) : Bytes :=
  [⟨h % 256, Nat.mod_lt _ (by decide)⟩,
   ⟨h / 256 % 256, Nat.mod_lt _ (by decide)⟩,
   ⟨h / 65536 % 256, Nat.mod_lt _ (by decide)⟩,
   ⟨h / 16777216 % 256, Nat.mod_lt _ (by decide)⟩]

/-- `binary.LittleEndian.Uint32`: reads the first four bytes and faults on a
shorter slice. -/
def Uint32 : Bytes → Except Error Nat
  | b0 :: b1 :: b2 :: b3 :: _ =>
    .ok (b0.val + b1.val * 256 + b2.val * 65536 + b3.val * 16777216)
  | _ => .error .indexOutOfRange

/-! ## The embedded store: one bucket -/

/-- `bytes.Compare`, the key order of a bucket. -/
def bytesCompare : Bytes → Bytes → Ordering
  | [], [] => .eq
  | [], _ :: _ => .lt
  | _ :: _, [] => .gt
  | a :: as, b :: bs =>
    if a < b then .lt else if b < a then .gt else bytesCompare as bs

/-- A bucket: its key/value pairs in cursor order. -/
abbrev Bucket := List (Bytes × Bytes)

/-- The keys of a bucket are strictly ascending in `bytes.Compare` order. -/
def Bucket.Ordered (b : Bucket) : Prop :=
  List.Pairwise (fun x y => bytesCompare x.1 y.1 = .lt) b

instance (b : Bucket) : Decidable (Bucket.Ordered b) := by
  unfold Bucket.Ordered; exact inferInstance

/-- `bolt.MaxKeySize`. -/
def MaxKeySize : Nat := 32768

/-- `bolt.MaxValueSize`. -/
def MaxValueSize : Nat := 2147483646

/-- The cursor part of `Bucket.Put`: seek to the key, replace the value on an
exact hit, insert at the cursor otherwise. -/
def Bucket.insert (k v : Bytes) : Bucket → Bucket
  | [] => [(k, v)]
  | (k', v') :: rest =>
    match bytesCompare k k' with
    | .lt => (k, v) :: (k', v') :: rest
    | .eq => (k, v) :: rest
    | .gt => (k', v') :: Bucket.insert k v rest

/-- `Bucket.Put` in a writable transaction: the bucket afterwards and the
error. -/
def Bucket.Put (b : Bucket) (k v : Bytes) : Bucket × Option Error :=
  if k.length = 0 then (b, some .ErrKeyRequired)
  else if k.length > MaxKeySize then (b, some .ErrKeyTooLarge)
  else if v.length > MaxValueSize then (b, some .ErrValueTooLarge)
  else (Bucket.insert k v b, none)

/-- `Bucket.Delete` in a writable transaction: seek to the key and remove the
pair on an exact hit; an absent key is not an error. -/
def Bucket.Delete (k : Bytes) : Bucket → Bucket
  | [] => []
  | (k', v') :: rest =>
    match bytesCompare k k' with
    | .lt => (k', v') :: rest
    | .eq => rest
    | .gt => (k', v') :: Bucket.Delete k rest

/-- `Bucket.Get`: the value under the key, `none` for Go's nil slice. -/
def Bucket.Get (k : Bytes) : Bucket → Option Bytes
  | [] => none
  | (k', v') :: rest =>
    match bytesCompare k k' with
    | .lt => none
    | .eq => some v'
    | .gt => Bucket.Get k rest

/-- `Bucket.ForEach`: calls `fn` on every pair in key order and stops at the
first error.  `fn` updates the variables `σ` its closure captured; what it
did before reporting an error stays done. -/
def Bucket.ForEach {σ : Type} (fn : σ → Bytes → Bytes → σ × Option Error) :
    Bucket → σ → σ × Option Error
  | [], s => (s, none)
  | (k, v) :: rest, s =>
    match fn s k v with
    | (s', some err) => (s', some err)
    | (s', none) => Bucket.ForEach fn rest s'

/-! ## Serialised values -/

/-- Modelled from the spec: the composite value of a CheckSet record, the raw
payload bytes together with the event.  The Go type `BytesAndEvent` and its
constructor are declared in another file of the package. -/
structure BytesAndEvent (Event : Type) where
  Bytes : Bytes
  Event : Event
  deriving DecidableEq

/-- Modelled from the spec: `NewBytesAndEvent(v, e)` pairs the payload with
the event. -/
def NewBytesAndEvent {Event : Type} (v : Bytes) (e : Event) : BytesAndEvent Event :=
  ⟨v, e⟩

/-- The calls into `encoding/json` the wrapper makes: `json.Marshal` and
`json.Unmarshal` at the event type and at the composite type.  The event type
`client.Event` belongs to the chain client and stays abstract. -/
structure Codec (Event : Type) where
  marshalEvent : Event → Except Error Bytes
  unmarshalEvent : Bytes → Except Error Event
  marshalBytesAndEvent : BytesAndEvent Event → Except Error Bytes
  unmarshalBytesAndEvent : Bytes → Except Error (BytesAndEvent Event)

/-- Whatever `json.Marshal` produced for an event decodes back to it. -/
def Codec.EventRoundTrips {Event : Type} (c : Codec Event) : Prop :=
  ∀ e bs, c.marshalEvent e = .ok bs → c.unmarshalEvent bs = .ok e

/-- Whatever `json.Marshal` produced for a composite decodes back to it. -/
def Codec.CompositeRoundTrips {Event : Type} (c : Codec Event) : Prop :=
  ∀ ve bs, c.marshalBytesAndEvent ve = .ok bs → c.unmarshalBytesAndEvent bs = .ok ve

/-- The stored value decodes as a composite. -/
def Codec.CheckDecodable {Event : Type} (c : Codec Event) (v : Bytes) : Prop :=
  ∃ ve, c.unmarshalBytesAndEvent v = .ok ve

/-- The stored value decodes as an event. -/
def Codec.RetryDecodable {Event : Type} (c : Codec Event) (v : Bytes) : Prop :=
  ∃ e, c.unmarshalEvent v = .ok e

/-! ## Go maps -/

/-- A Go `map[string]V`: one pair per key. -/
abbrev GoMap (V : Type) := List (String × V)

/-- The assignment `m[k] = v`. -/
def GoMap.set {V : Type} (k : String) (v : V) : GoMap V → GoMap V
  | [] => [(k, v)]
  | (k', v') :: rest =>
    if k' = k then (k', v) :: rest else (k', v') :: GoMap.set k v rest

/-- The lookup `m[k]` with its presence flag. -/
def GoMap.get? {V : Type} (k : String) : GoMap V → Option V
  | [] => none
  | (k', v') :: rest => if k' = k then some v' else GoMap.get? k rest

/-- The builtin `len(m)`. -/
def GoMap.len {V : Type} (m : GoMap V) : Nat :=
  m.length

/-! ## The database and its transactions -/

/-- The content of the database behind a `*BoltDB`: the three buckets
`NewBoltDB` makes sure exist. -/
structure BoltDB where
  check : Bucket
  retry : Bucket
  height : Bucket
  deriving DecidableEq

/-- Every bucket keeps its keys strictly ascending. -/
def BoltDB.WF (w : BoltDB) : Prop :=
  w.check.Ordered ∧ w.retry.Ordered ∧ w.height.Ordered

instance (w : BoltDB) : Decidable w.WF := by
  unfold BoltDB.WF; exact inferInstance

/-- The buckets of a database file; a bucket may not exist yet. -/
structure DBFile where
  check : Option Bucket
  retry : Option Bucket
  height : Option Bucket
  deriving DecidableEq

/-- A file that was just created. -/
def DBFile.empty : DBFile :=
  ⟨none, none, none⟩

/-- `Tx.CreateBucketIfNotExists`: an existing bucket is kept as it is. -/
def CreateBucketIfNotExists : Option Bucket → Bucket
  | some b => b
  | none => []

/-- The three `db.Update` calls of `NewBoltDB`, once the file is open. -/
def NewBoltDB (f : DBFile) : BoltDB :=
  { check := CreateBucketIfNotExists f.check
    retry := CreateBucketIfNotExists f.retry
    height := CreateBucketIfNotExists f.height }

/-- `db.Update(fn)`: `fn` works on the transaction's view of the buckets; a
nil result commits that view, an error rolls it back.  `α` is what the
closure left in the variables it captured. -/
def Update {α : Type} (db : BoltDB) (fn : BoltDB → α × BoltDB × Option Error) :
    α × BoltDB × Option Error :=
  match fn db with
  | (a, tx, none) => (a, tx, none)
  | (a, _, some err) => (a, db, some err)

/-- `db.View(fn)`: a read-only transaction. -/
def View {α : Type} (db : BoltDB) (fn : BoltDB → α × Option Error) : α × Option Error :=
  fn db

/-! ## CheckSet -/

/-- `BoltDB.PutStarcoinTxCheck`. -/
def PutStarcoinTxCheck {Event : Type} (c : Codec Event) (w : BoltDB)
    (txHash : String) (v : Bytes) (e : Event) : BoltDB × Option Error :=
  match DecodeString txHash with
  | .error err => (w, some err)
  | .ok k =>
    let ve := NewBytesAndEvent v e
    match c.marshalBytesAndEvent ve with
    | .error err => (w, some err)
    | .ok veBytes =>
      (Update w (fun btx =>
        let r := Bucket.Put btx.check k veBytes
        match r.2 with
        | some err => ((), { btx with check := r.1 }, some err)
        | none => ((), { btx with check := r.1 }, none))).2

/-- `BoltDB.DeleteStarcoinTxCheck`. -/
def DeleteStarcoinTxCheck (w : BoltDB) (txHash : String) : BoltDB × Option Error :=
  match DecodeString txHash with
  | .error err => (w, some err)
  | .ok k =>
    (Update w (fun tx =>
      ((), { tx with check := Bucket.Delete k tx.check }, none))).2

/-- The callback `GetAllStarcoinTxCheck` hands to `ForEach`; the captured
variable is `checkMap`. -/
def checkEach {Event : Type} (c : Codec Event) (checkMap : GoMap (BytesAndEvent Event))
    (k v : Bytes) : GoMap (BytesAndEvent Event) × Option Error :=
  match c.unmarshalBytesAndEvent v with
  | .error mErr => (checkMap, some mErr)
  | .ok bytesAndEvent =>
    let checkMap := GoMap.set (EncodeToString k) bytesAndEvent checkMap
    if checkMap.len ≥ BOLTDB_MAX_NUM then (checkMap, some .maxNum) else (checkMap, none)

/-- `BoltDB.GetAllStarcoinTxCheck`.  The closure given to `db.Update` calls
`bw.ForEach` as a statement and then returns nil, so what `ForEach` returned
does not reach `err`. -/
def GetAllStarcoinTxCheck {Event : Type} (c : Codec Event) (w : BoltDB) :
    BoltDB × Except Error (GoMap (BytesAndEvent Event)) :=
  let r := Update w (fun tx =>
    let bw := tx.check
    let checkMap := (Bucket.ForEach (checkEach c) bw []).1
    (checkMap, tx, none))
  match r.2.2 with
  | some err => (r.2.1, .error err)
  | none => (r.2.1, .ok r.1)

/-! ## RetrySet -/

/-- `BoltDB.PutStarcoinTxRetry`. -/
def PutStarcoinTxRetry {Event : Type} (c : Codec Event) (w : BoltDB)
    (k : Bytes) (event : Event) : BoltDB × Option Error :=
  match c.marshalEvent event with
  | .error err => (w, some err)
  | .ok eventBS =>
    (Update w (fun btx =>
      let r := Bucket.Put btx.retry k eventBS
      match r.2 with
      | some err => ((), { btx with retry := r.1 }, some err)
      | none => ((), { btx with retry := r.1 }, none))).2

/-- `BoltDB.DeleteStarcoinTxRetry`. -/
def DeleteStarcoinTxRetry (w : BoltDB) (k : Bytes) : BoltDB × Option Error :=
  (Update w (fun tx =>
    ((), { tx with retry := Bucket.Delete k tx.retry }, none))).2

/-- The callback `GetAllStarcoinTxRetry` hands to `ForEach`; the captured
variables are `retryList` and `eventList`.  The key is appended before the
value is decoded. -/
def retryEach {Event : Type} (c : Codec Event) (s : List Bytes × List Event)
    (k v : Bytes) : (List Bytes × List Event) × Option Error :=
  let retryList := s.1 ++ [k]
  match c.unmarshalEvent v with
  | .error umErr => ((retryList, s.2), some umErr)
  | .ok e =>
    let eventList := s.2 ++ [e]
    if retryList.length ≥ BOLTDB_MAX_NUM then ((retryList, eventList), some .maxNum)
    else ((retryList, eventList), none)

/-- `BoltDB.GetAllStarcoinTxRetry`; as in the CheckSet listing the result of
`ForEach` is dropped inside the closure. -/
def GetAllStarcoinTxRetry {Event : Type} (c : Codec Event) (w : BoltDB) :
    BoltDB × Except Error (List Bytes × List Event) :=
  let r := Update w (fun tx =>
    let bw := tx.retry
    let lists := (Bucket.ForEach (retryEach c) bw ([], [])).1
    (lists, tx, none))
  match r.2.2 with
  | some err => (r.2.1, .error err)
  | none => (r.2.1, .ok r.1)

/-! ## HeightRegister -/

/-- `BoltDB.UpdatePolyHeight`; `key` is the constant `KEY_POLY_HEIGHT`, which
is declared in another file of the package, and `h` is a `uint32`. -/
def UpdatePolyHeight (key : Bytes) (w : BoltDB) (h : Nat) : BoltDB × Option Error :=
  let raw := PutUint32 (h % 4294967296)
  (Update w (fun tx =>
    let r := Bucket.Put tx.height key raw
    ((), { tx with height := r.1 }, r.2))).2

/-- `BoltDB.GetPolyHeight`. -/
def GetPolyHeight (key : Bytes) (w : BoltDB) : BoltDB × Except Error Nat :=
  let r := View w (fun tx =>
    let bkt := tx.height
    match Bucket.Get key bkt with
    | none => (Except.ok 0, none)
    | some raw =>
      if raw.length = 0 then (Except.ok 0, none)
      else (Uint32 raw, none))
  match r.2 with
  | some err => (w, .error err)
  | none => (w, r.1)

/-! ## What a record contributes to a listing -/

/-- The pair a CheckSet record adds to `checkMap`: its key in hexadecimal and
its decoded value; nothing when the value does not decode. -/
def checkEntry {Event : Type} (c : Codec Event) (kv : Bytes × Bytes) :
    Option (String × BytesAndEvent Event) :=
  match c.unmarshalBytesAndEvent kv.2 with
  | .ok ve => some (EncodeToString kv.1, ve)
  | .error _ => none

/-- The key and the decoded event a RetrySet record adds to the two lists;
nothing when the value does not decode. -/
def retryEntry {Event : Type} (c : Codec Event) (kv : Bytes × Bytes) :
    Option (Bytes × Event) :=
  match c.unmarshalEvent kv.2 with
  | .ok e => some (kv.1, e)
  | .error _ => none

/-! ## Sequences of calls -/

/-- One call of a working method of the wrapper. -/
inductive Op (Event : Type) where
  | putCheck (txHash : String) (v : Bytes) (e : Event)
  | deleteCheck (txHash : String)
  | getAllCheck
  | putRetry (k : Bytes) (e : Event)
  | deleteRetry (k : Bytes)
  | getAllRetry
  | updatePolyHeight (h : Nat)
  | getPolyHeight

/-- The database after one call. -/
def Op.apply {Event : Type} (c : Codec Event) (key : Bytes) (w : BoltDB) : Op Event → BoltDB
  | .putCheck txHash v e => (PutStarcoinTxCheck c w txHash v e).1
  | .deleteCheck txHash => (DeleteStarcoinTxCheck w txHash).1
  | .getAllCheck => (GetAllStarcoinTxCheck c w).1
  | .putRetry k e => (PutStarcoinTxRetry c w k e).1
  | .deleteRetry k => (DeleteStarcoinTxRetry w k).1
  | .getAllRetry => (GetAllStarcoinTxRetry c w).1
  | .updatePolyHeight h => (UpdatePolyHeight key w h).1
  | .getPolyHeight => (GetPolyHeight key w).1

/-- The database after a sequence of calls, first call first. -/
def runOps {Event : Type} (c : Codec Event) (key : Bytes) (w : BoltDB) : List (Op Event) → BoltDB
  | [] => w
  | op :: ops => runOps c key (op.apply c key w) ops

/-- The call stores under the CheckSet key `k`. -/
def Op.putsCheckKey {Event : Type} (k : Bytes) : Op Event → Prop
  | .putCheck txHash _ _ => DecodeString txHash = .ok k
  | _ => False

/-! ## `strings` and `path`: the file that is opened -/

/-- `strings.HasPrefix` on the characters of the two strings. -/
def hasPrefix : List Char → List Char → Bool
  | _, [] => true
  | [], _ :: _ => false
  | c :: cs, p :: ps => decide (c = p) && hasPrefix cs ps

/-- The search of `strings.Index`: does the text occur at some position. -/
def containsChars : List Char → List Char → Bool
  | [], substr => hasPrefix [] substr
  | c :: cs, substr => hasPrefix (c :: cs) substr || containsChars cs substr

/-- `strings.Contains`. -/
def Contains (s substr : String) : Bool :=
  containsChars s.data substr.data

/-- `strings.HasSuffix`: the text ends in the suffix. -/
def HasSuffix (s suffix : String) : Bool :=
  hasPrefix s.data.reverse suffix.data.reverse

/-- The elements of a path between its slashes. -/
def splitSlash : List Char → List (List Char)
  | [] => [[]]
  | c :: cs =>
    if c = '/' then [] :: splitSlash cs
    else
      match splitSlash cs with
      | [] => [[c]]
      | x :: xs => (c :: x) :: xs

/-- One round of the loop of `path.Clean` on the next element; `out` holds the
elements written so far, the last one first.  Empty and `.` elements are
dropped, `..` removes the element before it, or stays when there is none to
remove and the path is not rooted. -/
def cleanStep (rooted : Bool) (out : List (List Char)) (el : List Char) : List (List Char) :=
  if el = [] ∨ el = ['.'] then out
  else if el = ['.', '.'] then
    match out with
    | [] => if rooted then [] else [el]
    | top :: rest => if top = ['.', '.'] then el :: out else rest
  else el :: out

/-- `path.Clean`. -/
def Clean (path : List Char) : List Char :=
  if path = [] then ['.']
  else
    let rooted := decide (path.head? = some '/')
    let out := (splitSlash path).foldl (cleanStep rooted) []
    let body := List.intercalate ['/'] out.reverse
    if rooted then '/' :: body
    else if body = [] then ['.'] else body

/-- `path.Join` of two elements: empty elements are skipped, the others joined
by a slash, the result cleaned. -/
def Join (a b : String) : String :=
  if a.data.length + b.data.length = 0 then ""
  else if a.data = [] then String.mk (Clean b.data)
  else String.mk (Clean (a.data ++ '/' :: b.data))

/-- The first statement of `NewBoltDB`: the path handed to `bolt.Open`. -/
def NewBoltDB.filePath (filePath : String) : String :=
  if !Contains filePath ".bin" then Join filePath "bolt.bin" else filePath

/-! ## Creating the buckets -/

/-- `BKTStarcoinTxCheck = []byte("StarcoinTxCheck")`. -/
def BKTStarcoinTxCheck : Bytes :=
  [83, 116, 97, 114, 99, 111, 105, 110, 84, 120, 67, 104, 101, 99, 107]

/-- `BKTStarcoinTxRetry = []byte("StarcoinTxRetry")`. -/
def BKTStarcoinTxRetry : Bytes :=
  [83, 116, 97, 114, 99, 111, 105, 110, 84, 120, 82, 101, 116, 114, 121]

/-- `BKTHeight = []byte("Height")`. -/
def BKTHeight : Bytes :=
  [72, 101, 105, 103, 104, 116]

/-- `Tx.CreateBucketIfNotExists(name)` seen from the place of that name in the
file: a blank name is refused, an existing bucket is returned as it is, a
missing one is created empty. -/
def Tx.CreateBucketIfNotExists (name : Bytes) (slot : Option Bucket) :
    Option Bucket × Option Error :=
  if name.length = 0 then (slot, some .ErrBucketNameRequired)
  else (some (BoltRelayer.CreateBucketIfNotExists slot), none)

/-- `db.Update(fn)` on the buckets of the file. -/
def UpdateFile (f : DBFile) (fn : DBFile → DBFile × Option Error) : DBFile × Option Error :=
  match fn f with
  | (tx, none) => (tx, none)
  | (_, some err) => (f, some err)

/-- The file behind an open handle: the three buckets exist. -/
def BoltDB.toFile (w : BoltDB) : DBFile :=
  ⟨some w.check, some w.retry, some w.height⟩

/-- The three transactions of `NewBoltDB` with their error exits: the file
afterwards and the Go result `(w, err)`.  A transaction that committed stays
committed when a later one fails. -/
def NewBoltDB.init (f : DBFile) : DBFile × Except Error BoltDB :=
  match UpdateFile f (fun btx =>
      let r := Tx.CreateBucketIfNotExists BKTStarcoinTxCheck btx.check
      ({ btx with check := r.1 }, r.2)) with
  | (f1, some err) => (f1, .error err)
  | (f1, none) =>
    match UpdateFile f1 (fun btx =>
        let r := Tx.CreateBucketIfNotExists BKTStarcoinTxRetry btx.retry
        ({ btx with retry := r.1 }, r.2)) with
    | (f2, some err) => (f2, .error err)
    | (f2, none) =>
      match UpdateFile f2 (fun btx =>
          let r := Tx.CreateBucketIfNotExists BKTHeight btx.height
          ({ btx with height := r.1 }, r.2)) with
      | (f3, some err) => (f3, .error err)
      | (f3, none) =>
        (f3, .ok ⟨CreateBucketIfNotExists f3.check, CreateBucketIfNotExists f3.retry,
          CreateBucketIfNotExists f3.height⟩)

/-! ## The extended interface -/

/-- Modelled from the spec: the record types of the extended lifecycle
interface (`PolyTxRetry`, `PolyTx`, `RemovedPolyTx`, `GasSubsidy`) are declared
in other files of the package and stay abstract. -/
structure ExtTypes where
  PolyTxRetry : Type
  PolyTx : Type
  RemovedPolyTx : Type
  GasSubsidy : Type

/-- `BoltDB.GetPolyTxRetry`: `(nil, err)`. -/
def GetPolyTxRetry (T : ExtTypes) (w : BoltDB) (_txHash : String) (_fromChainID : Nat) :
    BoltDB × Option T.PolyTxRetry × Option Error :=
  (w, none, some .notImplemented)

/-- `BoltDB.GetAllPolyTxRetry`: `(nil, err)`. -/
def GetAllPolyTxRetry (T : ExtTypes) (w : BoltDB) :
    BoltDB × List (Option T.PolyTxRetry) × Option Error :=
  (w, [], some .notImplemented)

/-- `BoltDB.DeletePolyTxRetry`. -/
def DeletePolyTxRetry (w : BoltDB) (_txHash : String) (_fromChainID : Nat) :
    BoltDB × Option Error :=
  (w, some .notImplemented)

/-- `BoltDB.PutPolyTxRetry`. -/
def PutPolyTxRetry (T : ExtTypes) (w : BoltDB) (_tx : Option T.PolyTxRetry) :
    BoltDB × Option Error :=
  (w, some .notImplemented)

/-- `BoltDB.IncreasePolyTxRetryCheckFeeCount`. -/
def IncreasePolyTxRetryCheckFeeCount (w : BoltDB) (_txHash : String) (_fromChainID : Nat)
    (_oldCount : Int) : BoltDB × Option Error :=
  (w, some .notImplemented)

/-- `BoltDB.SetPolyTxRetryFeeStatus`. -/
def SetPolyTxRetryFeeStatus (w : BoltDB) (_txHash : String) (_fromChainID : Nat)
    (_status : String) : BoltDB × Option Error :=
  (w, some .notImplemented)

/-- `BoltDB.UpdatePolyTxStarcoinStatus`. -/
def UpdatePolyTxStarcoinStatus (w : BoltDB) (_txHash : String) (_fromChainID : Nat)
    (_status : String) (_msg : String) : BoltDB × Option Error :=
  (w, some .notImplemented)

/-- `BoltDB.GetPolyTx`: `(nil, err)`. -/
def GetPolyTx (T : ExtTypes) (w : BoltDB) (_txHash : String) (_fromChainID : Nat) :
    BoltDB × Option T.PolyTx × Option Error :=
  (w, none, some .notImplemented)

/-- `BoltDB.PutPolyTx`: `(0, err)`. -/
def PutPolyTx (T : ExtTypes) (w : BoltDB) (_tx : Option T.PolyTx) :
    BoltDB × Nat × Option Error :=
  (w, 0, some .notImplemented)

/-- `BoltDB.RemovePolyTx`. -/
def RemovePolyTx (T : ExtTypes) (w : BoltDB) (_tx : Option T.PolyTx) :
    BoltDB × Option Error :=
  (w, some .notImplemented)

/-- `BoltDB.PushBackRemovePolyTx`. -/
def PushBackRemovePolyTx (w : BoltDB) (_id : Nat) : BoltDB × Option Error :=
  (w, some .notImplemented)

/-- `BoltDB.UpdatePolyTxNonMembershipProofByIndex`. -/
def UpdatePolyTxNonMembershipProofByIndex (w : BoltDB) (_idx : Nat) : BoltDB × Option Error :=
  (w, some .notImplemented)

/-- `BoltDB.SetPolyTxStatus`. -/
def SetPolyTxStatus (w : BoltDB) (_txHash : String) (_fromChainID : Nat)
    (_oldStatus : String) (_status : String) : BoltDB × Option Error :=
  (w, some .notImplemented)

/-- `BoltDB.SetPolyTxStatusProcessing`. -/
def SetPolyTxStatusProcessing (w : BoltDB) (_txHash : String) (_fromChainID : Nat)
    (_oldStatus : String) : BoltDB × Option Error :=
  (w, some .notImplemented)

/-- `BoltDB.SetProcessingPolyTxStarcoinTxHash`. -/
def SetProcessingPolyTxStarcoinTxHash (w : BoltDB) (_txHash : String) (_fromChainID : Nat)
    (_starcoinTxHash : String) : BoltDB × Option Error :=
  (w, some .notImplemented)

/-- `BoltDB.SetPolyTxStatusProcessed`. -/
def SetPolyTxStatusProcessed (w : BoltDB) (_txHash : String) (_fromChainID : Nat)
    (_oldStatus : String) (_starcoinTxHash : String) : BoltDB × Option Error :=
  (w, some .notImplemented)

/-- `BoltDB.GetFirstFailedPolyTx`: `(nil, err)`. -/
def GetFirstFailedPolyTx (T : ExtTypes) (w : BoltDB) :
    BoltDB × Option T.PolyTx × Option Error :=
  (w, none, some .notImplemented)

/-- `BoltDB.GetFirstTimedOutPolyTx`: `(nil, err)`. -/
def GetFirstTimedOutPolyTx (T : ExtTypes) (w : BoltDB) :
    BoltDB × Option T.PolyTx × Option Error :=
  (w, none, some .notImplemented)

/-- `BoltDB.GetFirstPolyTxToBeRemoved`: `(nil, err)`. -/
def GetFirstPolyTxToBeRemoved (T : ExtTypes) (w : BoltDB) :
    BoltDB × Option T.PolyTx × Option Error :=
  (w, none, some .notImplemented)

/-- `BoltDB.GetFirstRemovedPolyTxToBePushedBack`: `(nil, err)`. -/
def GetFirstRemovedPolyTxToBePushedBack (T : ExtTypes) (w : BoltDB) :
    BoltDB × Option T.RemovedPolyTx × Option Error :=
  (w, none, some .notImplemented)

/-- `BoltDB.GetTimedOutOrFailedPolyTxList`: `(nil, err)`. -/
def GetTimedOutOrFailedPolyTxList (T : ExtTypes) (w : BoltDB) :
    BoltDB × List (Option T.PolyTx) × Option Error :=
  (w, [], some .notImplemented)

/-- `BoltDB.GetPolyTxListNotHaveGasSubsidy`: `(nil, err)`. -/
def GetPolyTxListNotHaveGasSubsidy (T : ExtTypes) (w : BoltDB) (_fromChainId : Nat)
    (_updatedAfter : Int) : BoltDB × List (Option T.PolyTx) × Option Error :=
  (w, [], some .notImplemented)

/-- `BoltDB.PutGasSubsidy`. -/
def PutGasSubsidy (T : ExtTypes) (w : BoltDB) (_gasSubsidy : Option T.GasSubsidy) :
    BoltDB × Option Error :=
  (w, some .notImplemented)

/-- `BoltDB.GetFirstNotSentGasSubsidy`: `(nil, err)`. -/
def GetFirstNotSentGasSubsidy (T : ExtTypes) (w : BoltDB) :
    BoltDB × Option T.GasSubsidy × Option Error :=
  (w, none, some .notImplemented)

/-- `BoltDB.GetFirstTimedOutGasSubsidy`: `(nil, err)`. -/
def GetFirstTimedOutGasSubsidy (T : ExtTypes) (w : BoltDB) :
    BoltDB × Option T.GasSubsidy × Option Error :=
  (w, none, some .notImplemented)

/-- `BoltDB.GetFirstFailedGasSubsidy`: `(nil, err)`. -/
def GetFirstFailedGasSubsidy (T : ExtTypes) (w : BoltDB) :
    BoltDB × Option T.GasSubsidy × Option Error :=
  (w, none, some .notImplemented)

/-- `BoltDB.SetGasSubsidyStarcoinTxInfo`. -/
def SetGasSubsidyStarcoinTxInfo (w : BoltDB) (_txHash : String) (_fromChainID : Nat)
    (_oldStatus : String) (_starcoinTxHash : Bytes) (_senderAddress : Bytes)
    (_senderSeqNum : Nat) : BoltDB × Option Error :=
  (w, some .notImplemented)

/-- `BoltDB.SetGasSubsidyStatusProcessed`. -/
def SetGasSubsidyStatusProcessed (w : BoltDB) (_txHash : String) (_fromChainID : Nat)
    (_oldStatus : String) : BoltDB × Option Error :=
  (w, some .notImplemented)

/-- `BoltDB.SetGasSubsidyStatus`. -/
def SetGasSubsidyStatus (w : BoltDB) (_txHash : String) (_fromChainID : Nat)
    (_oldStatus : String) (_status : String) : BoltDB × Option Error :=
  (w, some .notImplemented)

/-- `BoltDB.GetGasSubsidyCountByToAddress`: `(-1, err)`. -/
def GetGasSubsidyCountByToAddress (w : BoltDB) (_toAddress : String) :
    BoltDB × Int × Option Error :=
  (w, -1, some .notImplemented)

/-! ## Sequences of calls of the whole interface -/

/-- One call of a method of the extended interface. -/
inductive ExtOp (T : ExtTypes) where
  | getPolyTxRetry (txHash : String) (fromChainID : Nat)
  | getAllPolyTxRetry
  | deletePolyTxRetry (txHash : String) (fromChainID : Nat)
  | putPolyTxRetry (tx : Option T.PolyTxRetry)
  | increasePolyTxRetryCheckFeeCount (txHash : String) (fromChainID : Nat) (oldCount : Int)
  | setPolyTxRetryFeeStatus (txHash : String) (fromChainID : Nat) (status : String)
  | updatePolyTxStarcoinStatus (txHash : String) (fromChainID : Nat) (status : String)
      (msg : String)
  | getPolyTx (txHash : String) (fromChainID : Nat)
  | putPolyTx (tx : Option T.PolyTx)
  | removePolyTx (tx : Option T.PolyTx)
  | pushBackRemovePolyTx (id : Nat)
  | updatePolyTxNonMembershipProofByIndex (idx : Nat)
  | setPolyTxStatus (txHash : String) (fromChainID : Nat) (oldStatus : String) (status : String)
  | setPolyTxStatusProcessing (txHash : String) (fromChainID : Nat) (oldStatus : String)
  | setProcessingPolyTxStarcoinTxHash (txHash : String) (fromChainID : Nat)
      (starcoinTxHash : String)
  | setPolyTxStatusProcessed (txHash : String) (fromChainID : Nat) (oldStatus : String)
      (starcoinTxHash : String)
  | getFirstFailedPolyTx
  | getFirstTimedOutPolyTx
  | getFirstPolyTxToBeRemoved
  | getFirstRemovedPolyTxToBePushedBack
  | getTimedOutOrFailedPolyTxList
  | getPolyTxListNotHaveGasSubsidy (fromChainId : Nat) (updatedAfter : Int)
  | putGasSubsidy (gasSubsidy : Option T.GasSubsidy)
  | getFirstNotSentGasSubsidy
  | getFirstTimedOutGasSubsidy
  | getFirstFailedGasSubsidy
  | setGasSubsidyStarcoinTxInfo (txHash : String) (fromChainID : Nat) (oldStatus : String)
      (starcoinTxHash : Bytes) (senderAddress : Bytes) (senderSeqNum : Nat)
  | setGasSubsidyStatusProcessed (txHash : String) (fromChainID : Nat) (oldStatus : String)
  | setGasSubsidyStatus (txHash : String) (fromChainID : Nat) (oldStatus : String)
      (status : String)
  | getGasSubsidyCountByToAddress (toAddress : String)

/-- The database after a call of the extended interface and the error the
call returned. -/
def ExtOp.run {T : ExtTypes} (w : BoltDB) : ExtOp T → BoltDB × Option Error
  | .getPolyTxRetry txHash fromChainID =>
    ((GetPolyTxRetry T w txHash fromChainID).1, (GetPolyTxRetry T w txHash fromChainID).2.2)
  | .getAllPolyTxRetry => ((GetAllPolyTxRetry T w).1, (GetAllPolyTxRetry T w).2.2)
  | .deletePolyTxRetry txHash fromChainID => DeletePolyTxRetry w txHash fromChainID
  | .putPolyTxRetry tx => PutPolyTxRetry T w tx
  | .increasePolyTxRetryCheckFeeCount txHash fromChainID oldCount =>
    IncreasePolyTxRetryCheckFeeCount w txHash fromChainID oldCount
  | .setPolyTxRetryFeeStatus txHash fromChainID status =>
    SetPolyTxRetryFeeStatus w txHash fromChainID status
  | .updatePolyTxStarcoinStatus txHash fromChainID status msg =>
    UpdatePolyTxStarcoinStatus w txHash fromChainID status msg
  | .getPolyTx txHash fromChainID =>
    ((GetPolyTx T w txHash fromChainID).1, (GetPolyTx T w txHash fromChainID).2.2)
  | .putPolyTx tx => ((PutPolyTx T w tx).1, (PutPolyTx T w tx).2.2)
  | .removePolyTx tx => RemovePolyTx T w tx
  | .pushBackRemovePolyTx id => PushBackRemovePolyTx w id
  | .updatePolyTxNonMembershipProofByIndex idx => UpdatePolyTxNonMembershipProofByIndex w idx
  | .setPolyTxStatus txHash fromChainID oldStatus status =>
    SetPolyTxStatus w txHash fromChainID oldStatus status
  | .setPolyTxStatusProcessing txHash fromChainID oldStatus =>
    SetPolyTxStatusProcessing w txHash fromChainID oldStatus
  | .setProcessingPolyTxStarcoinTxHash txHash fromChainID starcoinTxHash =>
    SetProcessingPolyTxStarcoinTxHash w txHash fromChainID starcoinTxHash
  | .setPolyTxStatusProcessed txHash fromChainID oldStatus starcoinTxHash =>
    SetPolyTxStatusProcessed w txHash fromChainID oldStatus starcoinTxHash
  | .getFirstFailedPolyTx => ((GetFirstFailedPolyTx T w).1, (GetFirstFailedPolyTx T w).2.2)
  | .getFirstTimedOutPolyTx =>
    ((GetFirstTimedOutPolyTx T w).1, (GetFirstTimedOutPolyTx T w).2.2)
  | .getFirstPolyTxToBeRemoved =>
    ((GetFirstPolyTxToBeRemoved T w).1, (GetFirstPolyTxToBeRemoved T w).2.2)
  | .getFirstRemovedPolyTxToBePushedBack =>
    ((GetFirstRemovedPolyTxToBePushedBack T w).1,
      (GetFirstRemovedPolyTxToBePushedBack T w).2.2)
  | .getTimedOutOrFailedPolyTxList =>
    ((GetTimedOutOrFailedPolyTxList T w).1, (GetTimedOutOrFailedPolyTxList T w).2.2)
  | .getPolyTxListNotHaveGasSubsidy fromChainId updatedAfter =>
    ((GetPolyTxListNotHaveGasSubsidy T w fromChainId updatedAfter).1,
      (GetPolyTxListNotHaveGasSubsidy T w fromChainId updatedAfter).2.2)
  | .putGasSubsidy gasSubsidy => PutGasSubsidy T w gasSubsidy
  | .getFirstNotSentGasSubsidy =>
    ((GetFirstNotSentGasSubsidy T w).1, (GetFirstNotSentGasSubsidy T w).2.2)
  | .getFirstTimedOutGasSubsidy =>
    ((GetFirstTimedOutGasSubsidy T w).1, (GetFirstTimedOutGasSubsidy T w).2.2)
  | .getFirstFailedGasSubsidy =>
    ((GetFirstFailedGasSubsidy T w).1, (GetFirstFailedGasSubsidy T w).2.2)
  | .setGasSubsidyStarcoinTxInfo txHash fromChainID oldStatus starcoinTxHash senderAddress
      senderSeqNum =>
    SetGasSubsidyStarcoinTxInfo w txHash fromChainID oldStatus starcoinTxHash senderAddress
      senderSeqNum
  | .setGasSubsidyStatusProcessed txHash fromChainID oldStatus =>
    SetGasSubsidyStatusProcessed w txHash fromChainID oldStatus
  | .setGasSubsidyStatus txHash fromChainID oldStatus status =>
    SetGasSubsidyStatus w txHash fromChainID oldStatus status
  | .getGasSubsidyCountByToAddress toAddress =>
    ((GetGasSubsidyCountByToAddress w toAddress).1,
      (GetGasSubsidyCountByToAddress w toAddress).2.2)

/-- One call of any method of the wrapper that works on an open database. -/
inductive Call (Event : Type) (T : ExtTypes) where
  | working (op : Op Event)
  | extended (op : ExtOp T)

/-- The database after one call. -/
def Call.apply {Event : Type} {T : ExtTypes} (c : Codec Event) (key : Bytes) (w : BoltDB) :
    Call Event T → BoltDB
  | .working op => op.apply c key w
  | .extended op => (op.run w).1

/-- The database after a sequence of calls, first call first. -/
def runCalls {Event : Type} {T : ExtTypes} (c : Codec Event) (key : Bytes) (w : BoltDB) :
    List (Call Event T) → BoltDB
  | [] => w
  | call :: calls => runCalls c key (call.apply c key w) calls

/-- The argument of the call when it is an `UpdatePolyHeight`. -/
def Call.height? {Event : Type} {T : ExtTypes} : Call Event T → Option Nat
  | .working (.updatePolyHeight h) => some h
  | _ => none

/-- The argument of the most recent `UpdatePolyHeight` among the calls. -/
def lastHeight {Event : Type} {T : ExtTypes} : List (Call Event T) → Option Nat
  | [] => none
  | call :: calls =>
    match lastHeight calls with
    | some h => some h
    | none => call.height?

/-- Two texts that differ at most in the case of their letters. -/
def SameUpToCase (h1 h2 : String) : Prop :=
  h1.data.map Char.toLower = h2.data.map Char.toLower

instance (h1 h2 : String) : Decidable (SameUpToCase h1 h2) := by
  unfold SameUpToCase; exact inferInstance

/-! ## Sample data -/

/-- A small serialiser for the examples: an event is one byte, a composite is
the event byte followed by the payload; the empty value decodes as neither. -/
def sampleCodec : Codec Byte where
  marshalEvent e := .ok [e]
  unmarshalEvent
    | [b] => .ok b
    | _ => .error (.jsonError 0)
  marshalBytesAndEvent ve := .ok (ve.Event :: ve.Bytes)
  unmarshalBytesAndEvent
    | b :: p => .ok ⟨p, b⟩
    | [] => .error (.jsonError 0)

/-- The database `NewBoltDB` returns for a new file. -/
def freshDB : BoltDB :=
  NewBoltDB DBFile.empty

/-- A CheckSet of two sound records. -/
def sampleCheckDB : BoltDB :=
  { check := [([0xaa, 0x11], [1, 1, 2, 3]), ([0xbb, 0x22], [2])]
    retry := []
    height := [] }

/-- A CheckSet whose only value is empty and so decodes as nothing. -/
def corruptCheckDB : BoltDB :=
  { check := [([0xaa, 0x11], [])]
    retry := []
    height := [] }

/-- A RetrySet whose only value is empty. -/
def corruptRetryDB : BoltDB :=
  { check := []
    retry := [([1, 2], [])]
    height := [] }

/-- A RetrySet with a sound record followed by one whose value is empty. -/
def halfCorruptRetryDB : BoltDB :=
  { check := []
    retry := [([1, 2], [2]), ([3, 4], [])]
    height := [] }

/-- The key of the `i`-th record of a large sample bucket: `i` on two bytes,
high byte first. -/
def sampleKey (i : Nat) : Bytes :=
  [⟨i / 256 % 256, Nat.mod_lt _ (by decide)⟩, ⟨i % 256, Nat.mod_lt _ (by decide)⟩]

/-- A bucket of `n` records with ascending keys; the value `[0]` decodes both
as an event and as a composite of the sample serialiser. -/
@[irreducible] def sampleBucket (n : Nat) : Bucket :=
  (List.range n).map (fun i => (sampleKey i, [0]))

/-- A database whose CheckSet and RetrySet hold `BOLTDB_MAX_NUM` records each. -/
def fullDB : BoltDB :=
  { check := sampleBucket 1000
    retry := sampleBucket 1000
    height := [] }

/-- A database whose RetrySet holds 1500 records, more than one listing
returns. -/
def overfullDB : BoltDB :=
  { check := []
    retry := sampleBucket 1500
    height := [] }

/-- A key one byte longer than `MaxKeySize`. -/
@[irreducible] def longKey : Bytes :=
  List.replicate 32769 1

/-- Record types for the examples of the extended interface. -/
def sampleExtTypes : ExtTypes :=
  ⟨Unit, Unit, Unit, Unit⟩

/-- A key for the height record, the bytes of `"poly_height"`. -/
def sampleHeightKey : Bytes :=
  [112, 111, 108, 121, 95, 104, 101, 105, 103, 104, 116]

/-- A sequence of calls of both interfaces with two height updates. -/
def sampleCalls : List (Call Byte sampleExtTypes) :=
  [.working (.updatePolyHeight 42),
   .working (.putCheck "aa11" [1, 2, 3] 1),
   .extended (.putPolyTx none),
   .working (.updatePolyHeight 7),
   .working .getAllCheck,
   .extended (.getGasSubsidyCountByToAddress "0x1"),
   .working (.putRetry [1, 2] 2),
   .working .getPolyHeight]

end BoltRelayer

namespace BoltRelayer

/-! ## Facts about `encoding/hex` -/

theorem fromHexChar_hexDigit : ∀ n, n < 16 → fromHexChar (hexDigit n) = some n := by
  decide

theorem hexDigit_lower : ∀ n, n < 16 →
    (48 ≤ (hexDigit n).toNat ∧ (hexDigit n).toNat ≤ 57) ∨
      (97 ≤ (hexDigit n).toNat ∧ (hexDigit n).toNat ≤ 102) := by
  decide

theorem hexDecode_hexEncode (bs : Bytes) : hexDecode (hexEncode bs) = .ok bs := by
  induction bs with
  | nil => rfl
  | cons b bs ih =>
    have hb := b.isLt
    have h1 := fromHexChar_hexDigit (b.val / 16) (by omega)
    have h2 := fromHexChar_hexDigit (b.val % 16) (by omega)
    simp only [hexEncode, hexDecode, h1, h2, ih]
    congr 2
    apply Fin.ext
    simp only
    omega

theorem hexEncode_injective {a b : Bytes} (h : hexEncode a = hexEncode b) : a = b := by
  have ha := hexDecode_hexEncode a
  rw [h, hexDecode_hexEncode b] at ha
  exact (Except.ok.inj ha).symm

theorem EncodeToString_injective {a b : Bytes} (h : EncodeToString a = EncodeToString b) :
    a = b := by
  unfold EncodeToString at h
  exact hexEncode_injective (congrArg String.data h)

theorem DecodeString_EncodeToString (bs : Bytes) : DecodeString (EncodeToString bs) = .ok bs :=
  hexDecode_hexEncode bs

theorem hexEncode_lower (bs : Bytes) : ∀ ch ∈ hexEncode bs,
    (48 ≤ ch.toNat ∧ ch.toNat ≤ 57) ∨ (97 ≤ ch.toNat ∧ ch.toNat ≤ 102) := by
  induction bs with
  | nil => intro ch h; simp [hexEncode] at h
  | cons b bs ih =>
    intro ch h
    have hb := b.isLt
    simp only [hexEncode, List.mem_cons] at h
    rcases h with h | h | h
    · subst h; exact hexDigit_lower _ (by omega)
    · subst h; exact hexDigit_lower _ (by omega)
    · exact ih ch h

theorem fromHexChar_of_isHexChar {c : Char} (h : isHexChar c) : ∃ a, fromHexChar c = some a := by
  unfold isHexChar at h
  unfold fromHexChar
  simp only
  split_ifs
  · exact ⟨_, rfl⟩
  · exact ⟨_, rfl⟩
  · exact ⟨_, rfl⟩
  · omega

theorem isHexChar_of_fromHexChar {c : Char} {a : Nat} (h : fromHexChar c = some a) :
    isHexChar c := by
  unfold fromHexChar at h
  unfold isHexChar
  simp only at h
  split_ifs at h <;> omega

theorem hexDecode_ok_of_valid : ∀ l : List Char,
    l.length % 2 = 0 → (∀ c ∈ l, isHexChar c) → ∃ k, hexDecode l = .ok k
  | [], _, _ => ⟨[], rfl⟩
  | [_], hl, _ => by simp at hl
  | p :: q :: rest, hl, hc => by
    obtain ⟨a, ha⟩ := fromHexChar_of_isHexChar (hc p (by simp))
    obtain ⟨b, hb⟩ := fromHexChar_of_isHexChar (hc q (by simp))
    obtain ⟨k, hk⟩ := hexDecode_ok_of_valid rest
      (by simp only [List.length_cons] at hl; omega)
      (fun c hc' => hc c (by simp [hc']))
    simp only [hexDecode, ha, hb, hk]
    exact ⟨_, rfl⟩

theorem valid_of_hexDecode_ok : ∀ (l : List Char) (k : Bytes),
    hexDecode l = .ok k → l.length % 2 = 0 ∧ ∀ c ∈ l, isHexChar c
  | [], _, _ => by simp
  | [p], k, h => by
    simp only [hexDecode] at h
    split at h <;> cases h
  | p :: q :: rest, k, h => by
    simp only [hexDecode] at h
    split at h
    · cases h
    · rename_i a ha
      split at h
      · cases h
      · rename_i b hb
        split at h
        · rename_i bs hbs
          have ih := valid_of_hexDecode_ok rest bs hbs
          refine ⟨by simp only [List.length_cons]; omega, ?_⟩
          intro c hc
          simp only [List.mem_cons] at hc
          rcases hc with hc | hc | hc
          · subst hc; exact isHexChar_of_fromHexChar ha
          · subst hc; exact isHexChar_of_fromHexChar hb
          · exact ih.2 c hc
        · cases h

theorem hexDecode_error_isHexError : ∀ (l : List Char) (err : Error),
    hexDecode l = .error err → err.isHexError = true
  | [], _, h => by simp [hexDecode] at h
  | [p], err, h => by
    simp only [hexDecode] at h
    split at h <;> cases h <;> rfl
  | p :: q :: rest, err, h => by
    simp only [hexDecode] at h
    split at h
    · cases h; rfl
    · split at h
      · cases h; rfl
      · split at h
        · cases h
        · rename_i e he
          cases h
          exact hexDecode_error_isHexError rest _ he

theorem DecodeString_of_valid {s : String} (h : ValidHex s) : ∃ k, DecodeString s = .ok k :=
  hexDecode_ok_of_valid s.data h.1 h.2

theorem DecodeString_of_invalid {s : String} (h : ¬ ValidHex s) :
    ∃ err, DecodeString s = .error err ∧ err.isHexError = true := by
  unfold DecodeString
  cases hd : hexDecode s.data with
  | ok k => exact absurd (valid_of_hexDecode_ok _ _ hd) h
  | error err => exact ⟨err, rfl, hexDecode_error_isHexError _ _ hd⟩

/-! ## Facts about `bytes.Compare` -/

theorem bytesCompare_cons_lt (a b : Byte) (as bs : Bytes) :
    bytesCompare (a :: as) (b :: bs) = .lt ↔ a < b ∨ (a = b ∧ bytesCompare as bs = .lt) := by
  simp only [bytesCompare]
  split_ifs with h1 h2
  · simp [h1]
  · simp only [reduceCtorEq, false_iff, not_or, not_and]
    exact ⟨h1, fun h => absurd (h ▸ h2) (lt_irrefl _)⟩
  · have hab : a = b := le_antisymm (not_lt.1 h2) (not_lt.1 h1)
    simp [hab]

theorem bytesCompare_cons_gt (a b : Byte) (as bs : Bytes) :
    bytesCompare (a :: as) (b :: bs) = .gt ↔ b < a ∨ (a = b ∧ bytesCompare as bs = .gt) := by
  simp only [bytesCompare]
  split_ifs with h1 h2
  · simp only [reduceCtorEq, false_iff, not_or, not_and]
    exact ⟨lt_asymm h1, fun h => absurd (h ▸ h1) (lt_irrefl _)⟩
  · simp [h2]
  · have hab : a = b := le_antisymm (not_lt.1 h2) (not_lt.1 h1)
    simp [hab]

theorem bytesCompare_cons_eq (a b : Byte) (as bs : Bytes) :
    bytesCompare (a :: as) (b :: bs) = .eq ↔ a = b ∧ bytesCompare as bs = .eq := by
  simp only [bytesCompare]
  split_ifs with h1 h2
  · simp only [reduceCtorEq, false_iff, not_and]
    exact fun h => absurd (h ▸ h1) (lt_irrefl _)
  · simp only [reduceCtorEq, false_iff, not_and]
    exact fun h => absurd (h ▸ h2) (lt_irrefl _)
  · have hab : a = b := le_antisymm (not_lt.1 h2) (not_lt.1 h1)
    simp [hab]

theorem bytesCompare_eq_iff : ∀ a b : Bytes, bytesCompare a b = .eq ↔ a = b
  | [], [] => by simp [bytesCompare]
  | [], _ :: _ => by simp [bytesCompare]
  | _ :: _, [] => by simp [bytesCompare]
  | a :: as, b :: bs => by
    rw [bytesCompare_cons_eq, bytesCompare_eq_iff as bs, List.cons.injEq]

theorem bytesCompare_self (a : Bytes) : bytesCompare a a = .eq :=
  (bytesCompare_eq_iff a a).2 rfl

theorem bytesCompare_gt_iff : ∀ a b : Bytes, bytesCompare a b = .gt ↔ bytesCompare b a = .lt
  | [], [] => by simp [bytesCompare]
  | [], _ :: _ => by simp [bytesCompare]
  | _ :: _, [] => by simp [bytesCompare]
  | a :: as, b :: bs => by
    rw [bytesCompare_cons_gt, bytesCompare_cons_lt, bytesCompare_gt_iff as bs]
    constructor
    · rintro (h | ⟨h1, h2⟩)
      · exact Or.inl h
      · exact Or.inr ⟨h1.symm, h2⟩
    · rintro (h | ⟨h1, h2⟩)
      · exact Or.inl h
      · exact Or.inr ⟨h1.symm, h2⟩

theorem bytesCompare_lt_trans : ∀ a b c : Bytes,
    bytesCompare a b = .lt → bytesCompare b c = .lt → bytesCompare a c = .lt
  | [], [], _ => by simp [bytesCompare]
  | [], _ :: _, [] => by simp [bytesCompare]
  | [], _ :: _, _ :: _ => by simp [bytesCompare]
  | _ :: _, [], _ => by simp [bytesCompare]
  | _ :: _, _ :: _, [] => by simp [bytesCompare]
  | a :: as, b :: bs, c :: cs => by
    rw [bytesCompare_cons_lt, bytesCompare_cons_lt, bytesCompare_cons_lt]
    rintro (h | ⟨h1, h2⟩) (h' | ⟨h1', h2'⟩)
    · exact Or.inl (lt_trans h h')
    · exact Or.inl (h1' ▸ h)
    · exact Or.inl (h1 ▸ h')
    · exact Or.inr ⟨h1.trans h1', bytesCompare_lt_trans as bs cs h2 h2'⟩

theorem bytesCompare_lt_ne {a b : Bytes} (h : bytesCompare a b = .lt) : a ≠ b := by
  intro hab
  rw [hab, bytesCompare_self] at h
  cases h

/-! ## Facts about a bucket -/

theorem Bucket.ordered_cons (x : Bytes × Bytes) (b : Bucket) :
    Bucket.Ordered (x :: b) ↔ (∀ y ∈ b, bytesCompare x.1 y.1 = .lt) ∧ Bucket.Ordered b := by
  unfold Bucket.Ordered
  exact List.pairwise_cons

theorem Bucket.ordered_nil : Bucket.Ordered [] := by
  unfold Bucket.Ordered
  exact List.Pairwise.nil

theorem Bucket.keys_nodup {b : Bucket} (h : b.Ordered) : (b.map Prod.fst).Nodup := by
  unfold Bucket.Ordered at h
  unfold List.Nodup
  rw [List.pairwise_map]
  exact h.imp (fun hxy => bytesCompare_lt_ne hxy)

theorem Bucket.mem_insert_cases (k v : Bytes) : ∀ (b : Bucket) (x : Bytes × Bytes),
    x ∈ Bucket.insert k v b → x = (k, v) ∨ x ∈ b
  | [], x, h => by
    simp only [Bucket.insert, List.mem_singleton] at h
    exact Or.inl h
  | (k', v') :: rest, x, h => by
    simp only [Bucket.insert] at h
    split at h
    · simp only [List.mem_cons] at h ⊢
      exact h
    · simp only [List.mem_cons] at h ⊢
      rcases h with h | h
      · exact Or.inl h
      · exact Or.inr (Or.inr h)
    · simp only [List.mem_cons] at h ⊢
      rcases h with h | h
      · exact Or.inr (Or.inl h)
      · rcases Bucket.mem_insert_cases k v rest x h with h | h
        · exact Or.inl h
        · exact Or.inr (Or.inr h)

theorem Bucket.insert_ordered (k v : Bytes) : ∀ b : Bucket,
    b.Ordered → (Bucket.insert k v b).Ordered
  | [], _ => by
    simp only [Bucket.insert]
    rw [Bucket.ordered_cons]
    exact ⟨by simp, Bucket.ordered_nil⟩
  | (k', v') :: rest, hb => by
    have hb' := (Bucket.ordered_cons _ _).1 hb
    simp only [Bucket.insert]
    split
    · rename_i hlt
      rw [Bucket.ordered_cons]
      refine ⟨?_, hb⟩
      intro y hy
      simp only [List.mem_cons] at hy
      rcases hy with hy | hy
      · subst hy; exact hlt
      · exact bytesCompare_lt_trans _ _ _ hlt (hb'.1 y hy)
    · rename_i heq
      have hk : k = k' := (bytesCompare_eq_iff _ _).1 heq
      subst hk
      rw [Bucket.ordered_cons]
      exact ⟨hb'.1, hb'.2⟩
    · rename_i hgt
      rw [Bucket.ordered_cons]
      refine ⟨?_, Bucket.insert_ordered k v rest hb'.2⟩
      intro y hy
      rcases Bucket.mem_insert_cases k v rest y hy with hy | hy
      · subst hy; exact (bytesCompare_gt_iff _ _).1 hgt
      · exact hb'.1 y hy

theorem Bucket.mem_insert (k v : Bytes) : ∀ (b : Bucket) (j u : Bytes), b.Ordered →
    ((j, u) ∈ Bucket.insert k v b ↔ (j = k ∧ u = v) ∨ (j ≠ k ∧ (j, u) ∈ b))
  | [], j, u, _ => by
    simp [Bucket.insert]
  | (k', v') :: rest, j, u, hb => by
    have hb' := (Bucket.ordered_cons _ _).1 hb
    simp only [Bucket.insert]
    split
    · rename_i hlt
      have hne : ∀ y ∈ (k', v') :: rest, y.1 ≠ k := by
        intro y hy
        simp only [List.mem_cons] at hy
        rcases hy with hy | hy
        · subst hy; exact (bytesCompare_lt_ne hlt).symm
        · exact (bytesCompare_lt_ne (bytesCompare_lt_trans _ _ _ hlt (hb'.1 y hy))).symm
      constructor
      · intro h
        rcases List.mem_cons.1 h with h | h
        · exact Or.inl ⟨(Prod.mk.inj h).1, (Prod.mk.inj h).2⟩
        · exact Or.inr ⟨hne _ h, h⟩
      · rintro (⟨h1, h2⟩ | ⟨_, h2⟩)
        · subst h1; subst h2; exact List.mem_cons_self _ _
        · exact List.mem_cons_of_mem _ h2
    · rename_i heq
      have hk : k = k' := (bytesCompare_eq_iff _ _).1 heq
      subst hk
      have hne : ∀ y ∈ rest, y.1 ≠ k := fun y hy => (bytesCompare_lt_ne (hb'.1 y hy)).symm
      constructor
      · intro h
        rcases List.mem_cons.1 h with h | h
        · exact Or.inl ⟨(Prod.mk.inj h).1, (Prod.mk.inj h).2⟩
        · exact Or.inr ⟨hne _ h, List.mem_cons_of_mem _ h⟩
      · rintro (⟨h1, h2⟩ | ⟨h1, h2⟩)
        · subst h1; subst h2; exact List.mem_cons_self _ _
        · rcases List.mem_cons.1 h2 with h | h
          · exact absurd (Prod.mk.inj h).1 h1
          · exact List.mem_cons_of_mem _ h
    · rename_i hgt
      have hne : k' ≠ k := bytesCompare_lt_ne ((bytesCompare_gt_iff _ _).1 hgt)
      have ih := Bucket.mem_insert k v rest j u hb'.2
      constructor
      · intro h
        rcases List.mem_cons.1 h with h | h
        · exact Or.inr ⟨(Prod.mk.inj h).1 ▸ hne, h ▸ List.mem_cons_self _ _⟩
        · rcases ih.1 h with h | ⟨h1, h2⟩
          · exact Or.inl h
          · exact Or.inr ⟨h1, List.mem_cons_of_mem _ h2⟩
      · rintro (h | ⟨h1, h2⟩)
        · exact List.mem_cons_of_mem _ (ih.2 (Or.inl h))
        · rcases List.mem_cons.1 h2 with h | h
          · exact h ▸ List.mem_cons_self _ _
          · exact List.mem_cons_of_mem _ (ih.2 (Or.inr ⟨h1, h⟩))

theorem Bucket.length_insert_le (k v : Bytes) : ∀ b : Bucket,
    (Bucket.insert k v b).length ≤ b.length + 1
  | [] => by simp [Bucket.insert]
  | (k', v') :: rest => by
    have ih := Bucket.length_insert_le k v rest
    simp only [Bucket.insert]
    split <;> simp only [List.length_cons] <;> omega

theorem Bucket.length_le_insert (k v : Bytes) : ∀ b : Bucket,
    b.length ≤ (Bucket.insert k v b).length
  | [] => by simp [Bucket.insert]
  | (k', v') :: rest => by
    have ih := Bucket.length_le_insert k v rest
    simp only [Bucket.insert]
    split <;> simp only [List.length_cons] <;> omega

theorem Bucket.mem_Delete_subset (k : Bytes) : ∀ (b : Bucket) (x : Bytes × Bytes),
    x ∈ Bucket.Delete k b → x ∈ b
  | [], x, h => by simp [Bucket.Delete] at h
  | (k', v') :: rest, x, h => by
    simp only [Bucket.Delete] at h
    split at h
    · exact h
    · exact List.mem_cons_of_mem _ h
    · rcases List.mem_cons.1 h with h | h
      · exact h ▸ List.mem_cons_self _ _
      · exact List.mem_cons_of_mem _ (Bucket.mem_Delete_subset k rest x h)

theorem Bucket.Delete_ordered (k : Bytes) : ∀ b : Bucket,
    b.Ordered → (Bucket.Delete k b).Ordered
  | [], h => by simpa [Bucket.Delete] using h
  | (k', v') :: rest, hb => by
    have hb' := (Bucket.ordered_cons _ _).1 hb
    simp only [Bucket.Delete]
    split
    · exact hb
    · exact hb'.2
    · rw [Bucket.ordered_cons]
      exact ⟨fun y hy => hb'.1 y (Bucket.mem_Delete_subset k rest y hy),
        Bucket.Delete_ordered k rest hb'.2⟩

theorem Bucket.mem_Delete (k : Bytes) : ∀ (b : Bucket) (j u : Bytes), b.Ordered →
    ((j, u) ∈ Bucket.Delete k b ↔ j ≠ k ∧ (j, u) ∈ b)
  | [], j, u, _ => by simp [Bucket.Delete]
  | (k', v') :: rest, j, u, hb => by
    have hb' := (Bucket.ordered_cons _ _).1 hb
    simp only [Bucket.Delete]
    split
    · rename_i hlt
      constructor
      · intro h
        refine ⟨?_, h⟩
        rcases List.mem_cons.1 h with h | h
        · exact (Prod.mk.inj h).1 ▸ (bytesCompare_lt_ne hlt).symm
        · exact (bytesCompare_lt_ne (bytesCompare_lt_trans _ _ _ hlt (hb'.1 _ h))).symm
      · exact fun h => h.2
    · rename_i heq
      have hk : k = k' := (bytesCompare_eq_iff _ _).1 heq
      subst hk
      constructor
      · intro h
        exact ⟨(bytesCompare_lt_ne (hb'.1 _ h)).symm, List.mem_cons_of_mem _ h⟩
      · rintro ⟨h1, h2⟩
        rcases List.mem_cons.1 h2 with h | h
        · exact absurd (Prod.mk.inj h).1 h1
        · exact h
    · rename_i hgt
      have hne : k' ≠ k := bytesCompare_lt_ne ((bytesCompare_gt_iff _ _).1 hgt)
      have ih := Bucket.mem_Delete k rest j u hb'.2
      constructor
      · intro h
        rcases List.mem_cons.1 h with h | h
        · exact ⟨(Prod.mk.inj h).1 ▸ hne, h ▸ List.mem_cons_self _ _⟩
        · exact ⟨(ih.1 h).1, List.mem_cons_of_mem _ (ih.1 h).2⟩
      · rintro ⟨h1, h2⟩
        rcases List.mem_cons.1 h2 with h | h
        · exact h ▸ List.mem_cons_self _ _
        · exact List.mem_cons_of_mem _ (ih.2 ⟨h1, h⟩)

theorem Bucket.Delete_absent (k : Bytes) : ∀ b : Bucket,
    (∀ v, (k, v) ∉ b) → Bucket.Delete k b = b
  | [], _ => rfl
  | (k', v') :: rest, h => by
    simp only [Bucket.Delete]
    split
    · rfl
    · rename_i heq
      have hk : k = k' := (bytesCompare_eq_iff _ _).1 heq
      exact absurd (hk ▸ List.mem_cons_self _ _) (h v')
    · rw [Bucket.Delete_absent k rest (fun v hv => h v (List.mem_cons_of_mem _ hv))]

theorem Bucket.Get_insert (k v : Bytes) : ∀ b : Bucket,
    Bucket.Get k (Bucket.insert k v b) = some v
  | [] => by simp [Bucket.insert, Bucket.Get, bytesCompare_self]
  | (k', v') :: rest => by
    simp only [Bucket.insert]
    split
    · simp [Bucket.Get, bytesCompare_self]
    · simp [Bucket.Get, bytesCompare_self]
    · rename_i hgt
      simp only [Bucket.Get, hgt]
      exact Bucket.Get_insert k v rest

/-! ## Facts about Go maps -/

theorem GoMap.set_fresh {V : Type} (k : String) (v : V) : ∀ m : GoMap V,
    (∀ p ∈ m, p.1 ≠ k) → GoMap.set k v m = m ++ [(k, v)]
  | [], _ => rfl
  | (k', v') :: rest, h => by
    have h1 : k' ≠ k := h (k', v') (List.mem_cons_self _ _)
    simp only [GoMap.set, if_neg h1, List.cons_append]
    rw [GoMap.set_fresh k v rest (fun p hp => h p (List.mem_cons_of_mem _ hp))]

theorem GoMap.length_set_le {V : Type} (k : String) (v : V) : ∀ m : GoMap V,
    (GoMap.set k v m).length ≤ m.length + 1
  | [] => by simp [GoMap.set]
  | (k', v') :: rest => by
    have ih := GoMap.length_set_le k v rest
    simp only [GoMap.set]
    split <;> simp only [List.length_cons] <;> omega

theorem GoMap.key_of_mem_set {V : Type} (k : String) (v : V) : ∀ (m : GoMap V) (p : String × V),
    p ∈ GoMap.set k v m → p.1 = k ∨ p.1 ∈ m.map Prod.fst
  | [], p, h => by
    simp only [GoMap.set, List.mem_singleton] at h
    exact Or.inl (by rw [h])
  | (k', v') :: rest, p, h => by
    simp only [GoMap.set] at h
    split at h
    · rename_i hk
      rcases List.mem_cons.1 h with h | h
      · exact Or.inl (by rw [h]; exact hk)
      · exact Or.inr (List.mem_map_of_mem _ (List.mem_cons_of_mem _ h))
    · rcases List.mem_cons.1 h with h | h
      · exact Or.inr (by rw [h]; simp)
      · rcases GoMap.key_of_mem_set k v rest p h with h | h
        · exact Or.inl h
        · exact Or.inr (by simp only [List.map_cons, List.mem_cons]; exact Or.inr h)

theorem GoMap.get?_eq_none {V : Type} (s : String) : ∀ m : GoMap V,
    (∀ p ∈ m, p.1 ≠ s) → GoMap.get? s m = none
  | [], _ => rfl
  | (k', v') :: rest, h => by
    have h1 : k' ≠ s := h (k', v') (List.mem_cons_self _ _)
    simp only [GoMap.get?, if_neg h1]
    exact GoMap.get?_eq_none s rest (fun p hp => h p (List.mem_cons_of_mem _ hp))

theorem GoMap.mem_of_get? {V : Type} (s : String) (v : V) : ∀ m : GoMap V,
    GoMap.get? s m = some v → (s, v) ∈ m
  | [], h => by simp [GoMap.get?] at h
  | (k', v') :: rest, h => by
    simp only [GoMap.get?] at h
    split at h
    · rename_i hk
      cases h
      subst hk
      exact List.mem_cons_self _ _
    · exact List.mem_cons_of_mem _ (GoMap.mem_of_get? s v rest h)

theorem GoMap.get?_of_mem {V : Type} (s : String) (v : V) : ∀ m : GoMap V,
    (m.map Prod.fst).Nodup → (s, v) ∈ m → GoMap.get? s m = some v
  | [], _, h => by simp at h
  | (k', v') :: rest, hn, h => by
    simp only [List.map_cons, List.nodup_cons] at hn
    simp only [GoMap.get?]
    rcases List.mem_cons.1 h with h | h
    · cases h
      simp
    · have hk : k' ≠ s := by
        intro hk
        subst hk
        exact hn.1 (List.mem_map_of_mem Prod.fst h)
      rw [if_neg hk]
      exact GoMap.get?_of_mem s v rest hn.2 h

/-! ## The two listing loops -/

section Loops

variable {Event : Type}

theorem GetAllStarcoinTxCheck_eq (c : Codec Event) (w : BoltDB) :
    GetAllStarcoinTxCheck c w = (w, .ok (Bucket.ForEach (checkEach c) w.check []).1) := rfl

theorem GetAllStarcoinTxRetry_eq (c : Codec Event) (w : BoltDB) :
    GetAllStarcoinTxRetry c w = (w, .ok (Bucket.ForEach (retryEach c) w.retry ([], [])).1) := rfl

theorem checkEntry_eq_some (c : Codec Event) (kv : Bytes × Bytes)
    (p : String × BytesAndEvent Event) :
    checkEntry c kv = some p ↔
      p.1 = EncodeToString kv.1 ∧ c.unmarshalBytesAndEvent kv.2 = .ok p.2 := by
  unfold checkEntry
  cases hd : c.unmarshalBytesAndEvent kv.2 with
  | error err => simp
  | ok ve =>
    simp only [Option.some.injEq, Except.ok.injEq]
    constructor
    · intro h; subst h; exact ⟨rfl, rfl⟩
    · rintro ⟨h1, h2⟩
      exact Prod.ext h1.symm h2

theorem retryEntry_eq_some (c : Codec Event) (kv : Bytes × Bytes) (p : Bytes × Event) :
    retryEntry c kv = some p ↔ p.1 = kv.1 ∧ c.unmarshalEvent kv.2 = .ok p.2 := by
  unfold retryEntry
  cases hd : c.unmarshalEvent kv.2 with
  | error err => simp
  | ok ve =>
    simp only [Option.some.injEq, Except.ok.injEq]
    constructor
    · intro h; subst h; exact ⟨rfl, rfl⟩
    · rintro ⟨h1, h2⟩
      exact Prod.ext h1.symm h2

theorem checkLoop_len (c : Codec Event) : ∀ (b : Bucket) (m : GoMap (BytesAndEvent Event)),
    m.length < BOLTDB_MAX_NUM →
      (Bucket.ForEach (checkEach c) b m).1.length ≤ BOLTDB_MAX_NUM
  | [], m, h => by
    simp only [Bucket.ForEach]
    omega
  | (k, v) :: rest, m, h => by
    simp only [Bucket.ForEach, checkEach]
    cases hd : c.unmarshalBytesAndEvent v with
    | error err =>
      simp only
      omega
    | ok ve =>
      simp only [GoMap.len]
      have hs := GoMap.length_set_le (EncodeToString k) ve m
      by_cases hc : (GoMap.set (EncodeToString k) ve m).length ≥ BOLTDB_MAX_NUM
      · simp only [hc, if_true]
        omega
      · simp only [hc, if_false]
        exact checkLoop_len c rest _ (by omega)

theorem checkLoop_keys (c : Codec Event) : ∀ (b : Bucket) (m : GoMap (BytesAndEvent Event))
    (p : String × BytesAndEvent Event), p ∈ (Bucket.ForEach (checkEach c) b m).1 →
      p.1 ∈ m.map Prod.fst ∨ ∃ kv ∈ b, p.1 = EncodeToString kv.1
  | [], m, p, h => by
    simp only [Bucket.ForEach] at h
    exact Or.inl (List.mem_map_of_mem _ h)
  | (k, v) :: rest, m, p, h => by
    simp only [Bucket.ForEach, checkEach] at h
    cases hd : c.unmarshalBytesAndEvent v with
    | error err =>
      rw [hd] at h
      simp only at h
      exact Or.inl (List.mem_map_of_mem _ h)
    | ok ve =>
      rw [hd] at h
      simp only [GoMap.len] at h
      have key : p.1 ∈ (GoMap.set (EncodeToString k) ve m).map Prod.fst ∨
          ∃ kv ∈ rest, p.1 = EncodeToString kv.1 := by
        by_cases hc : (GoMap.set (EncodeToString k) ve m).length ≥ BOLTDB_MAX_NUM
        · simp only [hc, if_true] at h
          exact Or.inl (List.mem_map_of_mem _ h)
        · simp only [hc, if_false] at h
          exact checkLoop_keys c rest _ p h
      rcases key with key | ⟨kv, hkv, hp⟩
      · obtain ⟨q, hq, hqp⟩ := List.mem_map.1 key
        rcases GoMap.key_of_mem_set _ _ _ q hq with h1 | h1
        · exact Or.inr ⟨(k, v), List.mem_cons_self _ _, by rw [← hqp, h1]⟩
        · exact Or.inl (hqp ▸ h1)
      · exact Or.inr ⟨kv, List.mem_cons_of_mem _ hkv, hp⟩

theorem checkLoop_eq (c : Codec Event) : ∀ (b : Bucket) (m : GoMap (BytesAndEvent Event)),
    m.length < BOLTDB_MAX_NUM →
    (∀ kv ∈ b.take (BOLTDB_MAX_NUM - m.length), c.CheckDecodable kv.2) →
    (∀ kv ∈ b, ∀ p ∈ m, p.1 ≠ EncodeToString kv.1) →
    (b.map Prod.fst).Nodup →
      Bucket.ForEach (checkEach c) b m =
        (m ++ (b.take (BOLTDB_MAX_NUM - m.length)).filterMap (checkEntry c),
          if m.length + b.length ≥ BOLTDB_MAX_NUM then some Error.maxNum else none)
  | [], m, h, _, _, _ => by
    simp only [Bucket.ForEach, List.take_nil, List.filterMap_nil, List.append_nil,
      List.length_nil, Nat.add_zero]
    rw [if_neg (by omega)]
  | (k, v) :: rest, m, h, hdec, hfresh, hnd => by
    obtain ⟨n, hn⟩ : ∃ n, BOLTDB_MAX_NUM - m.length = n + 1 := ⟨BOLTDB_MAX_NUM - m.length - 1, by omega⟩
    rw [hn, List.take_succ_cons] at hdec ⊢
    obtain ⟨ve, hve⟩ := hdec (k, v) (List.mem_cons_self _ _)
    have hset : GoMap.set (EncodeToString k) ve m = m ++ [(EncodeToString k, ve)] :=
      GoMap.set_fresh _ _ _ (fun p hp => hfresh (k, v) (List.mem_cons_self _ _) p hp)
    have hce : checkEntry c (k, v) = some (EncodeToString k, ve) :=
      (checkEntry_eq_some c (k, v) _).2 ⟨rfl, hve⟩
    simp only [List.map_cons, List.nodup_cons] at hnd
    simp only [Bucket.ForEach, checkEach, hve, hset, GoMap.len, List.length_append,
      List.length_singleton, List.filterMap_cons, hce, List.length_cons, List.length_nil,
      Nat.zero_add]
    by_cases hc : m.length + 1 ≥ BOLTDB_MAX_NUM
    · have hn0 : n = 0 := by omega
      subst hn0
      simp only [hc, if_true, List.take_zero, List.filterMap_nil]
      rw [if_pos (by omega)]
    · simp only [hc, if_false]
      have ih := checkLoop_eq c rest (m ++ [(EncodeToString k, ve)])
        (by simp only [List.length_append, List.length_singleton]; omega)
        (by
          intro kv hkv
          have : BOLTDB_MAX_NUM - (m ++ [(EncodeToString k, ve)]).length = n := by
            simp only [List.length_append, List.length_singleton]; omega
          rw [this] at hkv
          exact hdec kv (List.mem_cons_of_mem _ hkv))
        (by
          intro kv hkv p hp
          rcases List.mem_append.1 hp with hp | hp
          · exact hfresh kv (List.mem_cons_of_mem _ hkv) p hp
          · simp only [List.mem_singleton] at hp
            subst hp
            intro heq
            have := EncodeToString_injective heq
            exact hnd.1 (this ▸ List.mem_map_of_mem Prod.fst hkv))
        hnd.2
      rw [ih]
      have : BOLTDB_MAX_NUM - (m ++ [(EncodeToString k, ve)]).length = n := by
        simp only [List.length_append, List.length_singleton]; omega
      rw [this]
      simp only [List.length_append, List.length_singleton, List.append_assoc,
        List.singleton_append]
      congr 1
      by_cases h2 : m.length + 1 + rest.length ≥ BOLTDB_MAX_NUM
      · rw [if_pos h2, if_pos (by omega)]
      · rw [if_neg h2, if_neg (by omega)]

theorem retryLoop_len (c : Codec Event) : ∀ (b : Bucket) (s : List Bytes × List Event),
    s.1.length < BOLTDB_MAX_NUM → s.2.length ≤ s.1.length →
      (Bucket.ForEach (retryEach c) b s).1.1.length ≤ BOLTDB_MAX_NUM ∧
        (Bucket.ForEach (retryEach c) b s).1.2.length ≤ BOLTDB_MAX_NUM
  | [], s, h, h' => by
    simp only [Bucket.ForEach]
    omega
  | (k, v) :: rest, s, h, h' => by
    simp only [Bucket.ForEach, retryEach]
    cases hd : c.unmarshalEvent v with
    | error err =>
      simp only [List.length_append, List.length_singleton]
      omega
    | ok e =>
      simp only [List.length_append, List.length_singleton]
      by_cases hc : s.1.length + 1 ≥ BOLTDB_MAX_NUM
      · simp only [hc, if_true, List.length_append, List.length_singleton]
        omega
      · simp only [hc, if_false]
        exact retryLoop_len c rest _
          (by simp only [List.length_append, List.length_singleton]; omega)
          (by simp only [List.length_append, List.length_singleton]; omega)

theorem retryLoop_keys (c : Codec Event) : ∀ (b : Bucket) (s : List Bytes × List Event)
    (k : Bytes), k ∈ (Bucket.ForEach (retryEach c) b s).1.1 →
      k ∈ s.1 ∨ ∃ kv ∈ b, k = kv.1
  | [], s, k, h => by
    simp only [Bucket.ForEach] at h
    exact Or.inl h
  | (k', v) :: rest, s, k, h => by
    simp only [Bucket.ForEach, retryEach] at h
    have key : k ∈ s.1 ++ [k'] ∨ ∃ kv ∈ rest, k = kv.1 := by
      cases hd : c.unmarshalEvent v with
      | error err =>
        rw [hd] at h
        exact Or.inl h
      | ok e =>
        rw [hd] at h
        simp only [List.length_append, List.length_singleton] at h
        by_cases hc : s.1.length + 1 ≥ BOLTDB_MAX_NUM
        · simp only [hc, if_true] at h
          exact Or.inl h
        · simp only [hc, if_false] at h
          exact retryLoop_keys c rest _ k h
    rcases key with key | ⟨kv, hkv, hk⟩
    · rcases List.mem_append.1 key with h1 | h1
      · exact Or.inl h1
      · simp only [List.mem_singleton] at h1
        exact Or.inr ⟨(k', v), List.mem_cons_self _ _, h1⟩
    · exact Or.inr ⟨kv, List.mem_cons_of_mem _ hkv, hk⟩

theorem retryLoop_eq (c : Codec Event) : ∀ (b : Bucket) (s : List Bytes × List Event),
    s.1.length < BOLTDB_MAX_NUM →
    (∀ kv ∈ b.take (BOLTDB_MAX_NUM - s.1.length), c.RetryDecodable kv.2) →
      Bucket.ForEach (retryEach c) b s =
        ((s.1 ++ ((b.take (BOLTDB_MAX_NUM - s.1.length)).filterMap (retryEntry c)).map Prod.fst,
          s.2 ++ ((b.take (BOLTDB_MAX_NUM - s.1.length)).filterMap (retryEntry c)).map Prod.snd),
          if s.1.length + b.length ≥ BOLTDB_MAX_NUM then some Error.maxNum else none)
  | [], s, h, _ => by
    simp only [Bucket.ForEach, List.take_nil, List.filterMap_nil, List.map_nil, List.append_nil,
      List.length_nil, Nat.add_zero]
    rw [if_neg (by omega)]
  | (k, v) :: rest, s, h, hdec => by
    obtain ⟨n, hn⟩ : ∃ n, BOLTDB_MAX_NUM - s.1.length = n + 1 :=
      ⟨BOLTDB_MAX_NUM - s.1.length - 1, by omega⟩
    rw [hn, List.take_succ_cons] at hdec ⊢
    obtain ⟨e, he⟩ := hdec (k, v) (List.mem_cons_self _ _)
    have hre : retryEntry c (k, v) = some (k, e) :=
      (retryEntry_eq_some c (k, v) _).2 ⟨rfl, he⟩
    simp only [Bucket.ForEach, retryEach, he, List.length_append, List.length_singleton,
      List.filterMap_cons, hre, List.length_cons, List.map_cons, List.length_nil, Nat.zero_add]
    by_cases hc : s.1.length + 1 ≥ BOLTDB_MAX_NUM
    · have hn0 : n = 0 := by omega
      subst hn0
      simp only [hc, if_true, List.take_zero, List.filterMap_nil, List.map_nil]
      rw [if_pos (by omega)]
    · simp only [hc, if_false]
      have hlen : BOLTDB_MAX_NUM - (s.1 ++ [k]).length = n := by
        simp only [List.length_append, List.length_singleton]; omega
      have ih := retryLoop_eq c rest (s.1 ++ [k], s.2 ++ [e])
        (by simp only [List.length_append, List.length_singleton]; omega)
        (by
          intro kv hkv
          simp only at hkv
          rw [hlen] at hkv
          exact hdec kv (List.mem_cons_of_mem _ hkv))
      have hlen2 : BOLTDB_MAX_NUM - (s.1.length + 1) = n := by omega
      have hif : (if s.1.length + 1 + rest.length ≥ BOLTDB_MAX_NUM then some Error.maxNum
          else none) = (if s.1.length + (rest.length + 1) ≥ BOLTDB_MAX_NUM then some Error.maxNum
          else none) := by
        by_cases h2 : s.1.length + 1 + rest.length ≥ BOLTDB_MAX_NUM
        · rw [if_pos h2, if_pos (by omega)]
        · rw [if_neg h2, if_neg (by omega)]
      rw [ih]
      simp only [List.length_append, List.length_singleton, hlen2, List.append_assoc,
        List.singleton_append, hif]

end Loops

/-! ## More on hexadecimal text: the canonical form -/

theorem fromHexChar_lt {ch : Char} {a : Nat} (h : fromHexChar ch = some a) : a < 16 := by
  unfold fromHexChar at h
  simp only at h
  split_ifs at h <;> cases h <;> omega

theorem hexDigit_fromHexChar {ch : Char} {a : Nat} (h : fromHexChar ch = some a)
    (hl : ¬ (65 ≤ ch.toNat ∧ ch.toNat ≤ 70)) : hexDigit a = ch := by
  unfold fromHexChar at h
  simp only at h
  unfold hexDigit
  split_ifs at h with h1 h2
  · cases h
    rw [if_pos (by omega)]
    have : 48 + (ch.toNat - 48) = ch.toNat := by omega
    rw [this, Char.ofNat_toNat]
  · cases h
    rw [if_neg (by omega)]
    have : 87 + (ch.toNat - 97 + 10) = ch.toNat := by omega
    rw [this, Char.ofNat_toNat]

theorem hexEncode_hexDecode : ∀ (l : List Char) (k : Bytes), hexDecode l = .ok k →
    (∀ ch ∈ l, ¬ (65 ≤ ch.toNat ∧ ch.toNat ≤ 70)) → hexEncode k = l
  | [], k, h, _ => by
    simp only [hexDecode] at h
    cases h
    rfl
  | [p], k, h, _ => by
    simp only [hexDecode] at h
    split at h <;> cases h
  | p :: q :: rest, k, h, hl => by
    simp only [hexDecode] at h
    split at h
    · cases h
    · rename_i a ha
      split at h
      · cases h
      · rename_i b hb
        split at h
        · rename_i bs hbs
          cases h
          have ha16 := fromHexChar_lt ha
          have hb16 := fromHexChar_lt hb
          have ih := hexEncode_hexDecode rest bs hbs (fun ch hch => hl ch (by simp [hch]))
          have e1 : (a * 16 + b) % 256 / 16 = a := by omega
          have e2 : (a * 16 + b) % 256 % 16 = b := by omega
          simp only [hexEncode, e1, e2, ih, hexDigit_fromHexChar ha (hl p (by simp)),
            hexDigit_fromHexChar hb (hl q (by simp))]
        · cases h

theorem EncodeToString_DecodeString (s : String) (k : Bytes) (h : DecodeString s = .ok k)
    (hl : ∀ ch ∈ s.data, ¬ (65 ≤ ch.toNat ∧ ch.toNat ≤ 70)) : EncodeToString k = s := by
  unfold EncodeToString
  rw [hexEncode_hexDecode s.data k h hl]

/-! ## The shape of the writing calls -/

section Shapes

variable {Event : Type}

theorem Bucket.Put_none {b : Bucket} {k v : Bytes} (h : (Bucket.Put b k v).2 = none) :
    (Bucket.Put b k v).1 = Bucket.insert k v b ∧ k ≠ [] ∧ k.length ≤ MaxKeySize := by
  unfold Bucket.Put at h ⊢
  by_cases h1 : k.length = 0
  · rw [if_pos h1] at h; cases h
  · rw [if_neg h1] at h ⊢
    by_cases h2 : k.length > MaxKeySize
    · rw [if_pos h2] at h; cases h
    · rw [if_neg h2] at h ⊢
      by_cases h3 : v.length > MaxValueSize
      · rw [if_pos h3] at h; cases h
      · rw [if_neg h3]
        refine ⟨rfl, ?_, by omega⟩
        intro hk
        exact h1 (by rw [hk]; rfl)

theorem Bucket.Put_cases (b : Bucket) (k v : Bytes) :
    (Bucket.Put b k v).1 = b ∨ (Bucket.Put b k v).1 = Bucket.insert k v b := by
  unfold Bucket.Put
  split_ifs
  · exact Or.inl rfl
  · exact Or.inl rfl
  · exact Or.inl rfl
  · exact Or.inr rfl

theorem Bucket.Put_ok (b : Bucket) (k v : Bytes) (hk : k ≠ []) (hk2 : k.length ≤ MaxKeySize)
    (hv : v.length ≤ MaxValueSize) : Bucket.Put b k v = (Bucket.insert k v b, none) := by
  have h0 : k.length ≠ 0 := fun h0 => hk (List.length_eq_zero.1 h0)
  unfold Bucket.Put
  rw [if_neg h0, if_neg (by omega), if_neg (by omega)]

theorem Bucket.Put_tooLarge (b : Bucket) (k v : Bytes) (h : k.length > MaxKeySize) :
    Bucket.Put b k v = (b, some .ErrKeyTooLarge) := by
  unfold Bucket.Put
  rw [if_neg (by omega), if_pos h]

theorem PutStarcoinTxCheck_none (c : Codec Event) (w : BoltDB) (txHash : String) (v : Bytes)
    (e : Event) (h : (PutStarcoinTxCheck c w txHash v e).2 = none) :
    ∃ k bs, DecodeString txHash = .ok k ∧
      c.marshalBytesAndEvent (NewBytesAndEvent v e) = .ok bs ∧
      (PutStarcoinTxCheck c w txHash v e).1 = { w with check := Bucket.insert k bs w.check } := by
  unfold PutStarcoinTxCheck at h ⊢
  cases hd : DecodeString txHash with
  | error err => rw [hd] at h; cases h
  | ok k =>
    rw [hd] at h
    simp only at h ⊢
    cases hm : c.marshalBytesAndEvent (NewBytesAndEvent v e) with
    | error err => rw [hm] at h; cases h
    | ok bs =>
      rw [hm] at h
      simp only [Update] at h ⊢
      cases hp : (Bucket.Put w.check k bs).2 with
      | some err => rw [hp] at h; cases h
      | none =>
        exact ⟨k, bs, rfl, rfl, by simp only [(Bucket.Put_none hp).1]⟩

theorem PutStarcoinTxCheck_cases (c : Codec Event) (w : BoltDB) (txHash : String) (v : Bytes)
    (e : Event) :
    (PutStarcoinTxCheck c w txHash v e).1 = w ∨
      ∃ k bs, DecodeString txHash = .ok k ∧
        (PutStarcoinTxCheck c w txHash v e).1 =
          { w with check := Bucket.insert k bs w.check } := by
  cases hp : (PutStarcoinTxCheck c w txHash v e).2 with
  | none =>
    obtain ⟨k, bs, hk, _, hw⟩ := PutStarcoinTxCheck_none c w txHash v e hp
    exact Or.inr ⟨k, bs, hk, hw⟩
  | some err =>
    left
    unfold PutStarcoinTxCheck at hp ⊢
    cases hd : DecodeString txHash with
    | error err => rfl
    | ok k =>
      rw [hd] at hp
      simp only at hp ⊢
      cases hm : c.marshalBytesAndEvent (NewBytesAndEvent v e) with
      | error err => rfl
      | ok bs =>
        rw [hm] at hp
        simp only [Update] at hp ⊢
        cases hq : (Bucket.Put w.check k bs).2 with
        | some err => rfl
        | none => rw [hq] at hp; cases hp

theorem PutStarcoinTxCheck_ok (c : Codec Event) (w : BoltDB) (txHash : String) (v : Bytes)
    (e : Event) (k bs : Bytes) (hd : DecodeString txHash = .ok k)
    (hm : c.marshalBytesAndEvent (NewBytesAndEvent v e) = .ok bs)
    (hk : k ≠ []) (hk2 : k.length ≤ MaxKeySize) (hv : bs.length ≤ MaxValueSize) :
    PutStarcoinTxCheck c w txHash v e =
      ({ w with check := Bucket.insert k bs w.check }, none) := by
  simp only [PutStarcoinTxCheck, hd, hm, Update, Bucket.Put_ok w.check k bs hk hk2 hv]

theorem DeleteStarcoinTxCheck_ok (w : BoltDB) (txHash : String) (k : Bytes)
    (hd : DecodeString txHash = .ok k) :
    DeleteStarcoinTxCheck w txHash = ({ w with check := Bucket.Delete k w.check }, none) := by
  simp only [DeleteStarcoinTxCheck, hd, Update]

theorem DeleteStarcoinTxCheck_cases (w : BoltDB) (txHash : String) :
    (DeleteStarcoinTxCheck w txHash).1 = w ∨
      ∃ k, (DeleteStarcoinTxCheck w txHash).1 = { w with check := Bucket.Delete k w.check } := by
  cases hd : DecodeString txHash with
  | error err => left; simp only [DeleteStarcoinTxCheck, hd]
  | ok k => right; exact ⟨k, by rw [DeleteStarcoinTxCheck_ok w txHash k hd]⟩

theorem PutStarcoinTxRetry_none (c : Codec Event) (w : BoltDB) (k : Bytes) (e : Event)
    (h : (PutStarcoinTxRetry c w k e).2 = none) :
    ∃ bs, c.marshalEvent e = .ok bs ∧
      (PutStarcoinTxRetry c w k e).1 = { w with retry := Bucket.insert k bs w.retry } := by
  unfold PutStarcoinTxRetry at h ⊢
  cases hm : c.marshalEvent e with
  | error err => rw [hm] at h; cases h
  | ok bs =>
    rw [hm] at h
    simp only [Update] at h ⊢
    cases hp : (Bucket.Put w.retry k bs).2 with
    | some err => rw [hp] at h; cases h
    | none =>
      exact ⟨bs, rfl, by simp only [(Bucket.Put_none hp).1]⟩

theorem PutStarcoinTxRetry_tooLarge (c : Codec Event) (w : BoltDB) (k : Bytes) (e : Event)
    (bs : Bytes) (hm : c.marshalEvent e = .ok bs) (hk : k.length > MaxKeySize) :
    PutStarcoinTxRetry c w k e = (w, some .ErrKeyTooLarge) := by
  simp only [PutStarcoinTxRetry, hm, Update, Bucket.Put_tooLarge w.retry k bs hk]

theorem PutStarcoinTxRetry_cases (c : Codec Event) (w : BoltDB) (k : Bytes) (e : Event) :
    (PutStarcoinTxRetry c w k e).1 = w ∨
      ∃ bs, (PutStarcoinTxRetry c w k e).1 = { w with retry := Bucket.insert k bs w.retry } := by
  cases hp : (PutStarcoinTxRetry c w k e).2 with
  | none =>
    obtain ⟨bs, _, hw⟩ := PutStarcoinTxRetry_none c w k e hp
    exact Or.inr ⟨bs, hw⟩
  | some err =>
    left
    unfold PutStarcoinTxRetry at hp ⊢
    cases hm : c.marshalEvent e with
    | error err => rfl
    | ok bs =>
      rw [hm] at hp
      simp only [Update] at hp ⊢
      cases hq : (Bucket.Put w.retry k bs).2 with
      | some err => rfl
      | none => rw [hq] at hp; cases hp

theorem DeleteStarcoinTxRetry_eq (w : BoltDB) (k : Bytes) :
    DeleteStarcoinTxRetry w k = ({ w with retry := Bucket.Delete k w.retry }, none) := rfl

theorem UpdatePolyHeight_cases (key : Bytes) (w : BoltDB) (h : Nat) :
    (UpdatePolyHeight key w h).1 = w ∨
      ∃ bs, (UpdatePolyHeight key w h).1 = { w with height := Bucket.insert key bs w.height } := by
  unfold UpdatePolyHeight
  simp only [Update]
  cases hp : (Bucket.Put w.height key (PutUint32 (h % 4294967296))).2 with
  | some err => exact Or.inl rfl
  | none => exact Or.inr ⟨PutUint32 (h % 4294967296), by simp only [(Bucket.Put_none hp).1]⟩

theorem GetPolyHeight_fst (key : Bytes) (w : BoltDB) : (GetPolyHeight key w).1 = w := by
  unfold GetPolyHeight
  simp only
  split <;> rfl

end Shapes

/-! ## A listing as a function of the bucket -/

section Listing

variable {Event : Type}

theorem mem_checkEntries (c : Codec Event) (b : Bucket) (p : String × BytesAndEvent Event) :
    p ∈ b.filterMap (checkEntry c) ↔
      ∃ kv ∈ b, p.1 = EncodeToString kv.1 ∧ c.unmarshalBytesAndEvent kv.2 = .ok p.2 := by
  rw [List.mem_filterMap]
  constructor
  · rintro ⟨kv, hkv, h⟩
    exact ⟨kv, hkv, (checkEntry_eq_some c kv p).1 h⟩
  · rintro ⟨kv, hkv, h⟩
    exact ⟨kv, hkv, (checkEntry_eq_some c kv p).2 h⟩

theorem checkEntries_keys (c : Codec Event) : ∀ b : Bucket,
    (∀ kv ∈ b, c.CheckDecodable kv.2) →
      (b.filterMap (checkEntry c)).map Prod.fst = b.map (fun kv => EncodeToString kv.1)
  | [], _ => rfl
  | (k, v) :: rest, h => by
    obtain ⟨ve, hve⟩ := h (k, v) (List.mem_cons_self _ _)
    have hce : checkEntry c (k, v) = some (EncodeToString k, ve) :=
      (checkEntry_eq_some c (k, v) _).2 ⟨rfl, hve⟩
    simp only [List.filterMap_cons, hce, List.map_cons]
    rw [checkEntries_keys c rest (fun kv hkv => h kv (List.mem_cons_of_mem _ hkv))]

theorem checkEntries_keys_nodup (c : Codec Event) : ∀ b : Bucket,
    (b.map Prod.fst).Nodup → ((b.filterMap (checkEntry c)).map Prod.fst).Nodup
  | [], _ => by simp
  | (k, v) :: rest, h => by
    simp only [List.map_cons, List.nodup_cons] at h
    have ih := checkEntries_keys_nodup c rest h.2
    cases hce : checkEntry c (k, v) with
    | none => simpa only [List.filterMap_cons, hce] using ih
    | some p =>
      simp only [List.filterMap_cons, hce, List.map_cons, List.nodup_cons]
      refine ⟨?_, ih⟩
      intro hmem
      obtain ⟨q, hq, hqp⟩ := List.mem_map.1 hmem
      obtain ⟨kv, hkv, hk1, _⟩ := (mem_checkEntries c rest q).1 hq
      have hp1 := ((checkEntry_eq_some c (k, v) p).1 hce).1
      have : kv.1 = k := EncodeToString_injective (by rw [← hk1, hqp, hp1])
      exact h.1 (this ▸ List.mem_map_of_mem Prod.fst hkv)

theorem get?_checkEntries (c : Codec Event) (b : Bucket) (hn : (b.map Prod.fst).Nodup)
    (s : String) (ve : BytesAndEvent Event) :
    GoMap.get? s (b.filterMap (checkEntry c)) = some ve ↔
      ∃ k v, (k, v) ∈ b ∧ s = EncodeToString k ∧ c.unmarshalBytesAndEvent v = .ok ve := by
  constructor
  · intro h
    obtain ⟨kv, hkv, h1, h2⟩ := (mem_checkEntries c b (s, ve)).1 (GoMap.mem_of_get? s ve _ h)
    exact ⟨kv.1, kv.2, hkv, h1, h2⟩
  · rintro ⟨k, v, hkv, h1, h2⟩
    exact GoMap.get?_of_mem s ve _ (checkEntries_keys_nodup c b hn)
      ((mem_checkEntries c b (s, ve)).2 ⟨(k, v), hkv, h1, h2⟩)

theorem GetAllStarcoinTxCheck_take (c : Codec Event) (w : BoltDB) (ho : w.check.Ordered)
    (hdec : ∀ kv ∈ w.check.take BOLTDB_MAX_NUM, c.CheckDecodable kv.2) :
    GetAllStarcoinTxCheck c w =
      (w, .ok ((w.check.take BOLTDB_MAX_NUM).filterMap (checkEntry c))) := by
  rw [GetAllStarcoinTxCheck_eq]
  rw [checkLoop_eq c w.check [] (by simp [BOLTDB_MAX_NUM]) hdec (by simp)
    (Bucket.keys_nodup ho)]
  simp

theorem retryEntries_keys (c : Codec Event) : ∀ b : Bucket,
    (∀ kv ∈ b, c.RetryDecodable kv.2) →
      (b.filterMap (retryEntry c)).map Prod.fst = b.map Prod.fst
  | [], _ => rfl
  | (k, v) :: rest, h => by
    obtain ⟨e, he⟩ := h (k, v) (List.mem_cons_self _ _)
    have hre : retryEntry c (k, v) = some (k, e) :=
      (retryEntry_eq_some c (k, v) _).2 ⟨rfl, he⟩
    simp only [List.filterMap_cons, hre, List.map_cons]
    rw [retryEntries_keys c rest (fun kv hkv => h kv (List.mem_cons_of_mem _ hkv))]

theorem mem_retryEntries (c : Codec Event) (b : Bucket) (p : Bytes × Event) :
    p ∈ b.filterMap (retryEntry c) ↔
      ∃ kv ∈ b, p.1 = kv.1 ∧ c.unmarshalEvent kv.2 = .ok p.2 := by
  rw [List.mem_filterMap]
  constructor
  · rintro ⟨kv, hkv, h⟩
    exact ⟨kv, hkv, (retryEntry_eq_some c kv p).1 h⟩
  · rintro ⟨kv, hkv, h⟩
    exact ⟨kv, hkv, (retryEntry_eq_some c kv p).2 h⟩

theorem GetAllStarcoinTxRetry_take (c : Codec Event) (w : BoltDB)
    (hdec : ∀ kv ∈ w.retry.take BOLTDB_MAX_NUM, c.RetryDecodable kv.2) :
    GetAllStarcoinTxRetry c w =
      (w, .ok (((w.retry.take BOLTDB_MAX_NUM).filterMap (retryEntry c)).map Prod.fst,
        ((w.retry.take BOLTDB_MAX_NUM).filterMap (retryEntry c)).map Prod.snd)) := by
  rw [GetAllStarcoinTxRetry_eq]
  rw [retryLoop_eq c w.retry ([], []) (by simp [BOLTDB_MAX_NUM]) hdec]
  simp

theorem checkEntries_length (c : Codec Event) (b : Bucket)
    (h : ∀ kv ∈ b, c.CheckDecodable kv.2) : (b.filterMap (checkEntry c)).length = b.length := by
  have := congrArg List.length (checkEntries_keys c b h)
  simpa using this

theorem retryEntries_length (c : Codec Event) (b : Bucket)
    (h : ∀ kv ∈ b, c.RetryDecodable kv.2) : (b.filterMap (retryEntry c)).length = b.length := by
  have := congrArg List.length (retryEntries_keys c b h)
  simpa using this

theorem checkLoop_flag (c : Codec Event) (b : Bucket) (ho : b.Ordered)
    (hlen : BOLTDB_MAX_NUM ≤ b.length)
    (hdec : ∀ kv ∈ b.take BOLTDB_MAX_NUM, c.CheckDecodable kv.2) :
    (Bucket.ForEach (checkEach c) b []).2 = some .maxNum := by
  rw [checkLoop_eq c b [] (by simp [BOLTDB_MAX_NUM]) hdec (by simp) (Bucket.keys_nodup ho)]
  simp only [List.length_nil, Nat.zero_add]
  rw [if_pos hlen]

theorem retryLoop_flag (c : Codec Event) (b : Bucket)
    (hlen : BOLTDB_MAX_NUM ≤ b.length)
    (hdec : ∀ kv ∈ b.take BOLTDB_MAX_NUM, c.RetryDecodable kv.2) :
    (Bucket.ForEach (retryEach c) b ([], [])).2 = some .maxNum := by
  rw [retryLoop_eq c b ([], []) (by simp [BOLTDB_MAX_NUM]) hdec]
  simp only [List.length_nil, Nat.zero_add]
  rw [if_pos hlen]

end Listing

/-! ## The sample data -/

theorem sampleCodec_compositeRoundTrips : sampleCodec.CompositeRoundTrips := by
  intro ve bs h
  simp only [sampleCodec, Except.ok.injEq] at h
  subst h
  rfl

theorem sampleCodec_eventRoundTrips : sampleCodec.EventRoundTrips := by
  intro e bs h
  simp only [sampleCodec, Except.ok.injEq] at h
  subst h
  rfl

theorem sampleKey_lt {i j : Nat} (hij : i < j) (hj : j < 65536) :
    bytesCompare (sampleKey i) (sampleKey j) = .lt := by
  unfold sampleKey
  rw [bytesCompare_cons_lt]
  by_cases h : i / 256 < j / 256
  · left
    rw [Fin.mk_lt_mk]
    omega
  · right
    refine ⟨Fin.ext (by simp only; omega), ?_⟩
    rw [bytesCompare_cons_lt]
    left
    rw [Fin.mk_lt_mk]
    omega

theorem sampleBucket_ordered (n : Nat) (hn : n ≤ 65536) : (sampleBucket n).Ordered := by
  unfold sampleBucket Bucket.Ordered
  rw [List.pairwise_map]
  exact (List.pairwise_lt_range n).imp_of_mem
    (fun _ hb hab => sampleKey_lt hab (by have := List.mem_range.1 hb; omega))

theorem sampleBucket_length (n : Nat) : (sampleBucket n).length = n := by
  simp [sampleBucket]

theorem sampleBucket_mem {n : Nat} {kv : Bytes × Bytes} (h : kv ∈ sampleBucket n) :
    ∃ i, i < n ∧ kv = (sampleKey i, [0]) := by
  unfold sampleBucket at h
  obtain ⟨i, hi, hkv⟩ := List.mem_map.1 h
  exact ⟨i, List.mem_range.1 hi, hkv.symm⟩

theorem sampleBucket_checkDecodable (n : Nat) :
    ∀ kv ∈ sampleBucket n, sampleCodec.CheckDecodable kv.2 := by
  intro kv hkv
  obtain ⟨i, _, h⟩ := sampleBucket_mem hkv
  subst h
  exact ⟨_, rfl⟩

theorem sampleBucket_retryDecodable (n : Nat) :
    ∀ kv ∈ sampleBucket n, sampleCodec.RetryDecodable kv.2 := by
  intro kv hkv
  obtain ⟨i, _, h⟩ := sampleBucket_mem hkv
  subst h
  exact ⟨_, rfl⟩

theorem freshDB_WF : freshDB.WF := by
  decide

theorem fullDB_WF : fullDB.WF := by
  unfold BoltDB.WF fullDB
  exact ⟨sampleBucket_ordered 1000 (by norm_num), sampleBucket_ordered 1000 (by norm_num),
    Bucket.ordered_nil⟩

theorem Bucket.insert_last (k v : Bytes) : ∀ b : Bucket,
    (∀ kv ∈ b, bytesCompare k kv.1 = .gt) → Bucket.insert k v b = b ++ [(k, v)]
  | [], _ => rfl
  | (k', v') :: rest, h => by
    have h1 : bytesCompare k k' = .gt := h (k', v') (List.mem_cons_self _ _)
    simp only [Bucket.insert, h1, List.cons_append]
    rw [Bucket.insert_last k v rest (fun kv hkv => h kv (List.mem_cons_of_mem _ hkv))]

theorem sampleKey_lt_ffff {i : Nat} (hi : i < 65535) :
    bytesCompare [255, 255] (sampleKey i) = .gt := by
  rw [bytesCompare_gt_iff]
  have h : ([255, 255] : Bytes) = sampleKey 65535 := by decide
  rw [h]
  exact sampleKey_lt hi (by decide)

theorem longKey_length : longKey.length = 32769 := by
  unfold longKey
  exact List.length_replicate _ _

/-! ## Sequences of calls keep the buckets ordered -/

section Sequences

variable {Event : Type}

theorem BoltDB.eta_check (w : BoltDB) : { w with check := w.check } = w := rfl

theorem Op.apply_WF (c : Codec Event) (key : Bytes) (w : BoltDB) (hw : w.WF) :
    ∀ op : Op Event, (op.apply c key w).WF
  | .putCheck txHash v e => by
    simp only [Op.apply]
    rcases PutStarcoinTxCheck_cases c w txHash v e with h | ⟨k, bs, _, h⟩
    · rw [h]; exact hw
    · rw [h]; exact ⟨Bucket.insert_ordered _ _ _ hw.1, hw.2.1, hw.2.2⟩
  | .deleteCheck txHash => by
    simp only [Op.apply]
    rcases DeleteStarcoinTxCheck_cases w txHash with h | ⟨k, h⟩
    · rw [h]; exact hw
    · rw [h]; exact ⟨Bucket.Delete_ordered _ _ hw.1, hw.2.1, hw.2.2⟩
  | .getAllCheck => by
    simp only [Op.apply, GetAllStarcoinTxCheck_eq]
    exact hw
  | .putRetry k e => by
    simp only [Op.apply]
    rcases PutStarcoinTxRetry_cases c w k e with h | ⟨bs, h⟩
    · rw [h]; exact hw
    · rw [h]; exact ⟨hw.1, Bucket.insert_ordered _ _ _ hw.2.1, hw.2.2⟩
  | .deleteRetry k => by
    simp only [Op.apply, DeleteStarcoinTxRetry_eq]
    exact ⟨hw.1, Bucket.Delete_ordered _ _ hw.2.1, hw.2.2⟩
  | .getAllRetry => by
    simp only [Op.apply, GetAllStarcoinTxRetry_eq]
    exact hw
  | .updatePolyHeight h => by
    simp only [Op.apply]
    rcases UpdatePolyHeight_cases key w h with h' | ⟨bs, h'⟩
    · rw [h']; exact hw
    · rw [h']; exact ⟨hw.1, hw.2.1, Bucket.insert_ordered _ _ _ hw.2.2⟩
  | .getPolyHeight => by
    simp only [Op.apply, GetPolyHeight_fst]
    exact hw

theorem Op.apply_absent (c : Codec Event) (key : Bytes) (w : BoltDB) (hw : w.WF) (k : Bytes)
    (habs : ∀ v, (k, v) ∉ w.check) :
    ∀ op : Op Event, ¬ op.putsCheckKey k → ∀ v, (k, v) ∉ (op.apply c key w).check
  | .putCheck txHash v e, hop => by
    simp only [Op.apply]
    rcases PutStarcoinTxCheck_cases c w txHash v e with h | ⟨j, bs, hj, h⟩
    · rw [h]; exact habs
    · rw [h]
      intro u hu
      rcases (Bucket.mem_insert j bs _ k u hw.1).1 hu with ⟨h1, _⟩ | ⟨_, h2⟩
      · exact hop (by simp only [Op.putsCheckKey]; rw [hj, h1])
      · exact habs u h2
  | .deleteCheck txHash, _ => by
    simp only [Op.apply]
    rcases DeleteStarcoinTxCheck_cases w txHash with h | ⟨j, h⟩
    · rw [h]; exact habs
    · rw [h]
      intro u hu
      exact habs u (Bucket.mem_Delete_subset _ _ _ hu)
  | .getAllCheck, _ => by
    simp only [Op.apply, GetAllStarcoinTxCheck_eq]
    exact habs
  | .putRetry j e, _ => by
    simp only [Op.apply]
    rcases PutStarcoinTxRetry_cases c w j e with h | ⟨bs, h⟩
    · rw [h]; exact habs
    · rw [h]; exact habs
  | .deleteRetry j, _ => by
    simp only [Op.apply, DeleteStarcoinTxRetry_eq]
    exact habs
  | .getAllRetry, _ => by
    simp only [Op.apply, GetAllStarcoinTxRetry_eq]
    exact habs
  | .updatePolyHeight h, _ => by
    simp only [Op.apply]
    rcases UpdatePolyHeight_cases key w h with h' | ⟨bs, h'⟩
    · rw [h']; exact habs
    · rw [h']; exact habs
  | .getPolyHeight, _ => by
    simp only [Op.apply, GetPolyHeight_fst]
    exact habs

theorem runOps_WF (c : Codec Event) (key : Bytes) : ∀ (ops : List (Op Event)) (w : BoltDB),
    w.WF → (runOps c key w ops).WF
  | [], _, hw => hw
  | op :: ops, w, hw => runOps_WF c key ops _ (Op.apply_WF c key w hw op)

theorem runOps_absent (c : Codec Event) (key : Bytes) (k : Bytes) :
    ∀ (ops : List (Op Event)) (w : BoltDB), w.WF → (∀ v, (k, v) ∉ w.check) →
      (∀ op ∈ ops, ¬ op.putsCheckKey k) → ∀ v, (k, v) ∉ (runOps c key w ops).check
  | [], _, _, habs, _ => habs
  | op :: ops, w, hw, habs, hops =>
    runOps_absent c key k ops _ (Op.apply_WF c key w hw op)
      (Op.apply_absent c key w hw k habs op (hops op (List.mem_cons_self _ _)))
      (fun op' hop' => hops op' (List.mem_cons_of_mem _ hop'))

theorem GetAllStarcoinTxCheck_absent (c : Codec Event) (w : BoltDB) (h : String) (k : Bytes)
    (hk : DecodeString h = .ok k) (habs : ∀ v, (k, v) ∉ w.check) :
    ∃ m, (GetAllStarcoinTxCheck c w).2 = .ok m ∧ GoMap.get? h m = none := by
  refine ⟨_, by rw [GetAllStarcoinTxCheck_eq], ?_⟩
  apply GoMap.get?_eq_none
  intro p hp hph
  rcases checkLoop_keys c w.check [] p hp with h1 | ⟨kv, hkv, h1⟩
  · simp at h1
  · have h2 : DecodeString h = .ok kv.1 := by
      rw [← hph, h1]
      exact DecodeString_EncodeToString kv.1
    rw [hk] at h2
    have h3 : k = kv.1 := Except.ok.inj h2
    exact habs kv.2 (by rw [h3]; exact hkv)

theorem GetAllStarcoinTxCheck_absent_key (c : Codec Event) (w : BoltDB) (h : String)
    (k : Bytes) (hk : DecodeString h = .ok k) (habs : ∀ v, (k, v) ∉ w.check) :
    ∃ m, (GetAllStarcoinTxCheck c w).2 = .ok m ∧
      GoMap.get? (EncodeToString k) m = none ∧ GoMap.get? h m = none := by
  refine ⟨_, by rw [GetAllStarcoinTxCheck_eq], ?_, ?_⟩
  · apply GoMap.get?_eq_none
    intro p hp hpk
    rcases checkLoop_keys c w.check [] p hp with h1 | ⟨kv, hkv, h1⟩
    · simp at h1
    · have h3 : kv.1 = k := EncodeToString_injective (by rw [← h1, hpk])
      exact habs kv.2 (by rw [← h3]; exact hkv)
  · apply GoMap.get?_eq_none
    intro p hp hph
    rcases checkLoop_keys c w.check [] p hp with h1 | ⟨kv, hkv, h1⟩
    · simp at h1
    · have h2 : DecodeString h = .ok kv.1 := by
        rw [← hph, h1]
        exact DecodeString_EncodeToString kv.1
      rw [hk] at h2
      have h3 : k = kv.1 := Except.ok.inj h2
      exact habs kv.2 (by rw [h3]; exact hkv)

end Sequences

/-! ## Bounded listing -/

section Claims

variable {Event : Type}

/-- C3: whatever the CheckSet and the RetrySet hold, the mapping returned by
`GetAllStarcoinTxCheck` has at most `BOLTDB_MAX_NUM` = 1000 entries and each of
the two sequences returned by `GetAllStarcoinTxRetry` has at most 1000
elements. -/
theorem GetAll_at_most_max_num (c : Codec Event) (w : BoltDB) :
    BOLTDB_MAX_NUM = 1000 ∧
    (∃ m, (GetAllStarcoinTxCheck c w).2 = .ok m ∧ m.len ≤ BOLTDB_MAX_NUM) ∧
    (∃ ks es, (GetAllStarcoinTxRetry c w).2 = .ok (ks, es) ∧
      ks.length ≤ BOLTDB_MAX_NUM ∧ es.length ≤ BOLTDB_MAX_NUM) := by
  refine ⟨rfl, ⟨_, by rw [GetAllStarcoinTxCheck_eq], ?_⟩, ⟨_, _, by rw [GetAllStarcoinTxRetry_eq], ?_⟩⟩
  · exact checkLoop_len c w.check [] (by simp [BOLTDB_MAX_NUM])
  · exact retryLoop_len c w.retry ([], []) (by simp [BOLTDB_MAX_NUM]) (Nat.le_refl _)

/-! ## Malformed transaction hashes -/

/-- C4: a transaction hash that is not valid hexadecimal (odd length or a
character that is no hexadecimal digit) makes `PutStarcoinTxCheck` and
`DeleteStarcoinTxCheck` return a decoding error of `encoding/hex` and leaves
the three collections as they were. -/
theorem invalid_hex_rejected (c : Codec Event) (w : BoltDB) (txHash : String) (v : Bytes)
    (e : Event)
    (h : txHash.data.length % 2 = 1 ∨ ∃ ch ∈ txHash.data, ¬ isHexChar ch) :
    (∃ err, PutStarcoinTxCheck c w txHash v e = (w, some err) ∧ err.isHexError = true) ∧
    (∃ err, DeleteStarcoinTxCheck w txHash = (w, some err) ∧ err.isHexError = true) := by
  have hinv : ¬ ValidHex txHash := by
    rintro ⟨h1, h2⟩
    rcases h with h | ⟨ch, hch, hn⟩
    · omega
    · exact hn (h2 ch hch)
  obtain ⟨err, herr, hhex⟩ := DecodeString_of_invalid hinv
  refine ⟨⟨err, ?_, hhex⟩, ⟨err, ?_, hhex⟩⟩
  · simp only [PutStarcoinTxCheck, herr]
  · simp only [DeleteStarcoinTxCheck, herr]

theorem invalid_hex_rejected_witness :
    ("a1z".data.length % 2 = 1 ∨ ∃ ch ∈ "a1z".data, ¬ isHexChar ch) ∧
    ((∃ err, PutStarcoinTxCheck sampleCodec freshDB "a1z" [1, 2, 3] 1 = (freshDB, some err) ∧
        err.isHexError = true) ∧
      (∃ err, DeleteStarcoinTxCheck freshDB "a1z" = (freshDB, some err) ∧
        err.isHexError = true)) :=
  ⟨by decide, invalid_hex_rejected sampleCodec freshDB "a1z" [1, 2, 3] 1 (by decide)⟩

/-! ## The height register -/

theorem Uint32_PutUint32 (h : Nat) (hh : h < 4294967296) : Uint32 (PutUint32 h) = .ok h := by
  simp only [PutUint32, Uint32]
  congr 1
  omega

theorem UpdatePolyHeight_eq (key : Bytes) (w : BoltDB) (h : Nat)
    (hk : key ≠ []) (hk2 : key.length ≤ MaxKeySize) :
    UpdatePolyHeight key w h =
      ({ w with height := Bucket.insert key (PutUint32 (h % 4294967296)) w.height }, none) := by
  have h0 : key.length ≠ 0 := fun h0 => hk (List.length_eq_zero.1 h0)
  have h1 : ¬ key.length > MaxKeySize := by omega
  have h2 : ¬ (PutUint32 (h % 4294967296)).length > MaxValueSize := by
    simp [PutUint32, MaxValueSize]
  simp only [UpdatePolyHeight, Update, Bucket.Put, if_neg h0, if_neg h1, if_neg h2]

theorem GetPolyHeight_UpdatePolyHeight (key : Bytes) (w : BoltDB) (h : Nat)
    (hk : key ≠ []) (hk2 : key.length ≤ MaxKeySize) (hh : h < 4294967296) :
    (GetPolyHeight key (UpdatePolyHeight key w h).1).2 = .ok h := by
  rw [UpdatePolyHeight_eq key w h hk hk2]
  simp only [GetPolyHeight, View, Bucket.Get_insert, Nat.mod_eq_of_lt hh]
  rw [if_neg (by simp [PutUint32])]
  exact Uint32_PutUint32 h hh

/-- C5: with a height key the store accepts (non-empty, at most `MaxKeySize`
bytes), `GetPolyHeight` on a freshly initialised store returns 0 without
error; after `UpdatePolyHeight(h)` with `h` an unsigned 32-bit number it
returns `h`; and after `UpdatePolyHeight(h1)` then `UpdatePolyHeight(h2)` it
returns `h2`. -/
theorem poly_height_overwrite (key : Bytes) (hk : key ≠ []) (hk2 : key.length ≤ MaxKeySize) :
    (GetPolyHeight key freshDB).2 = .ok 0 ∧
    (∀ (w : BoltDB) (h : Nat), h < 4294967296 →
      (UpdatePolyHeight key w h).2 = none ∧
        (GetPolyHeight key (UpdatePolyHeight key w h).1).2 = .ok h) ∧
    (∀ (w : BoltDB) (h1 h2 : Nat), h1 < 4294967296 → h2 < 4294967296 →
      (GetPolyHeight key
        (UpdatePolyHeight key (UpdatePolyHeight key w h1).1 h2).1).2 = .ok h2) := by
  refine ⟨rfl, ?_, ?_⟩
  · intro w h hh
    exact ⟨by rw [UpdatePolyHeight_eq key w h hk hk2],
      GetPolyHeight_UpdatePolyHeight key w h hk hk2 hh⟩
  · intro w h1 h2 _ hh2
    exact GetPolyHeight_UpdatePolyHeight key _ h2 hk hk2 hh2

theorem poly_height_overwrite_witness :
    (GetPolyHeight sampleHeightKey freshDB).2 = .ok 0 ∧
    (GetPolyHeight sampleHeightKey (UpdatePolyHeight sampleHeightKey freshDB 42).1).2 = .ok 42 ∧
    (GetPolyHeight sampleHeightKey
      (UpdatePolyHeight sampleHeightKey
        (UpdatePolyHeight sampleHeightKey freshDB 42).1 7).1).2 = .ok 7 :=
  have h := poly_height_overwrite sampleHeightKey (by decide) (by decide)
  ⟨h.1, (h.2.1 freshDB 42 (by decide)).2, h.2.2 freshDB 42 7 (by decide) (by decide)⟩

/-! ## A listing of a small, sound CheckSet -/

/-- C10: when the CheckSet holds fewer than 1000 records and every value
deserialises, `GetAllStarcoinTxCheck` returns without error a mapping with one
entry per stored record: its keys are the lowercase hexadecimal encodings of
the stored keys, no two alike, and the key of a record maps to the decoded
composite of that record. -/
theorem GetAllStarcoinTxCheck_exact (c : Codec Event) (w : BoltDB)
    (ho : w.check.Ordered) (hlt : w.check.length < BOLTDB_MAX_NUM)
    (hdec : ∀ kv ∈ w.check, c.CheckDecodable kv.2) :
    ∃ m, (GetAllStarcoinTxCheck c w).2 = .ok m ∧
      m.len = w.check.length ∧
      m.map Prod.fst = w.check.map (fun kv => EncodeToString kv.1) ∧
      (m.map Prod.fst).Nodup ∧
      (∀ s ve, GoMap.get? s m = some ve ↔
        ∃ k v, (k, v) ∈ w.check ∧ s = EncodeToString k ∧
          c.unmarshalBytesAndEvent v = .ok ve) ∧
      (∀ s ∈ m.map Prod.fst, ∀ ch ∈ s.data,
        (48 ≤ ch.toNat ∧ ch.toNat ≤ 57) ∨ (97 ≤ ch.toNat ∧ ch.toNat ≤ 102)) := by
  have htake : w.check.take BOLTDB_MAX_NUM = w.check := List.take_of_length_le (by omega)
  have hkeys := checkEntries_keys c w.check hdec
  refine ⟨w.check.filterMap (checkEntry c), ?_, ?_, hkeys, ?_, ?_, ?_⟩
  · rw [GetAllStarcoinTxCheck_take c w ho (by rw [htake]; exact hdec), htake]
  · have := congrArg List.length hkeys
    simpa [GoMap.len] using this
  · exact checkEntries_keys_nodup c w.check (Bucket.keys_nodup ho)
  · exact get?_checkEntries c w.check (Bucket.keys_nodup ho)
  · intro s hs ch hch
    rw [hkeys] at hs
    obtain ⟨kv, _, hkv⟩ := List.mem_map.1 hs
    subst hkv
    exact hexEncode_lower kv.1 ch hch

theorem GetAllStarcoinTxCheck_exact_witness :
    ∃ m, (GetAllStarcoinTxCheck sampleCodec sampleCheckDB).2 = .ok m ∧
      m.len = sampleCheckDB.check.length ∧
      m.map Prod.fst = sampleCheckDB.check.map (fun kv => EncodeToString kv.1) ∧
      (m.map Prod.fst).Nodup ∧
      (∀ s ve, GoMap.get? s m = some ve ↔
        ∃ k v, (k, v) ∈ sampleCheckDB.check ∧ s = EncodeToString k ∧
          sampleCodec.unmarshalBytesAndEvent v = .ok ve) ∧
      (∀ s ∈ m.map Prod.fst, ∀ ch ∈ s.data,
        (48 ≤ ch.toNat ∧ ch.toNat ≤ 57) ∨ (97 ≤ ch.toNat ∧ ch.toNat ≤ 102)) :=
  GetAllStarcoinTxCheck_exact sampleCodec sampleCheckDB (by decide) (by decide)
    (by
      intro kv hkv
      simp only [sampleCheckDB, List.mem_cons, List.mem_singleton, List.not_mem_nil,
        or_false] at hkv
      rcases hkv with hkv | hkv <;> subst hkv <;> exact ⟨_, rfl⟩)

/-! ## Values that do not deserialise -/

/-- C7 at its failing input: a CheckSet (a RetrySet) whose only value does not
deserialise.  The decoding error stays inside `ForEach`; the call returns a
result and no error. -/
theorem GetAll_drops_decode_error :
    sampleCodec.unmarshalBytesAndEvent [] = .error (.jsonError 0) ∧
    (GetAllStarcoinTxCheck sampleCodec corruptCheckDB).2 = .ok [] ∧
    sampleCodec.unmarshalEvent [] = .error (.jsonError 0) ∧
    (GetAllStarcoinTxRetry sampleCodec corruptRetryDB).2 = .ok ([[1, 2]], []) :=
  ⟨rfl, rfl, rfl, rfl⟩

/-- C8 at its failing input: a RetrySet whose second value does not
deserialise.  `GetAllStarcoinTxRetry` returns without error two keys and one
event. -/
theorem GetAllStarcoinTxRetry_misaligned :
    (GetAllStarcoinTxRetry sampleCodec halfCorruptRetryDB).2 = .ok ([[1, 2], [3, 4]], [2]) ∧
    ([[1, 2], [3, 4]] : List Bytes).length ≠ ([2] : List Byte).length :=
  ⟨rfl, by decide⟩

/-! ## A record that was just stored -/

/-- C1 as stated fails.  A hash with uppercase digits is stored and listed
under its lowercase form, so the mapping has no key `"AA11"` after
`Put("AA11", …)`.  On a CheckSet that already holds 1000 smaller keys the
record stored under `"ffff"` lies beyond the listing bound and is not
returned.  And behind a record whose value does not deserialise nothing is
listed (the dropped decoding error of C7), so `"bb22"` is missing after
`Put("bb22", …)`. -/
theorem PutStarcoinTxCheck_key_not_listed :
    sampleCodec.CompositeRoundTrips ∧
    (ValidHex "bb22" ∧ corruptCheckDB.WF ∧
      (PutStarcoinTxCheck sampleCodec corruptCheckDB "bb22" [1, 2, 3] 1).2 = none ∧
      (GetAllStarcoinTxCheck sampleCodec
        (PutStarcoinTxCheck sampleCodec corruptCheckDB "bb22" [1, 2, 3] 1).1).2 = .ok [] ∧
      GoMap.get? "bb22" ([] : GoMap (BytesAndEvent Byte)) = none) ∧
    (ValidHex "AA11" ∧
      (PutStarcoinTxCheck sampleCodec freshDB "AA11" [1, 2, 3] 1).2 = none ∧
      (GetAllStarcoinTxCheck sampleCodec
        (PutStarcoinTxCheck sampleCodec freshDB "AA11" [1, 2, 3] 1).1).2 =
          .ok [("aa11", ⟨[1, 2, 3], 1⟩)] ∧
      GoMap.get? "AA11" [("aa11", (⟨[1, 2, 3], 1⟩ : BytesAndEvent Byte))] = none) ∧
    (ValidHex "ffff" ∧ fullDB.WF ∧
      (PutStarcoinTxCheck sampleCodec fullDB "ffff" [1, 2, 3] 1).2 = none ∧
      ∃ m, (GetAllStarcoinTxCheck sampleCodec
        (PutStarcoinTxCheck sampleCodec fullDB "ffff" [1, 2, 3] 1).1).2 = .ok m ∧
        GoMap.get? "ffff" m = none) := by
  refine ⟨sampleCodec_compositeRoundTrips, ⟨by decide, by decide, rfl, rfl, rfl⟩,
    ⟨by decide, rfl, rfl, by decide⟩, by decide, fullDB_WF, ?_⟩
  have hd : DecodeString "ffff" = .ok [255, 255] := rfl
  have hput := PutStarcoinTxCheck_ok sampleCodec fullDB "ffff" [1, 2, 3] 1 [255, 255]
    [1, 1, 2, 3] hd rfl (by simp) (by simp [MaxKeySize]) (by simp [MaxValueSize])
  have hins : Bucket.insert [255, 255] [1, 1, 2, 3] fullDB.check =
      sampleBucket 1000 ++ [([255, 255], [1, 1, 2, 3])] :=
    Bucket.insert_last _ _ _ (by
      intro kv hkv
      obtain ⟨i, hi, h⟩ := sampleBucket_mem hkv
      subst h
      exact sampleKey_lt_ffff (by omega))
  have hord : (sampleBucket 1000 ++ [([255, 255], [1, 1, 2, 3])] : Bucket).Ordered := by
    rw [← hins]
    exact Bucket.insert_ordered _ _ _ fullDB_WF.1
  have htake : (sampleBucket 1000 ++ [([255, 255], [1, 1, 2, 3])] : Bucket).take BOLTDB_MAX_NUM =
      sampleBucket 1000 := by
    have := List.take_left (sampleBucket 1000) [(([255, 255] : Bytes), ([1, 1, 2, 3] : Bytes))]
    rw [sampleBucket_length] at this
    exact this
  rw [hput, hins]
  refine ⟨rfl, (sampleBucket 1000).filterMap (checkEntry sampleCodec), ?_, ?_⟩
  · rw [GetAllStarcoinTxCheck_take sampleCodec _ hord
      (by simp only; rw [htake]; exact sampleBucket_checkDecodable 1000)]
    simp only
    rw [htake]
  · apply GoMap.get?_eq_none
    intro p hp
    obtain ⟨kv, hkv, hk, _⟩ := (mem_checkEntries sampleCodec _ p).1 hp
    obtain ⟨i, hi, h⟩ := sampleBucket_mem hkv
    subst h
    rw [hk]
    intro heq
    have h2 : sampleKey i = [255, 255] := EncodeToString_injective heq
    have h3 := sampleKey_lt_ffff (i := i) (by omega)
    rw [h2, bytesCompare_self] at h3
    cases h3

/-- C1, amended: on a CheckSet whose values all deserialise and which holds
at most 1000 records once the record is stored, a successful
`PutStarcoinTxCheck(h, p, e)` makes `GetAllStarcoinTxCheck` return a mapping in
which the lowercase hexadecimal form of `h` (which is `h` itself when `h` has
no uppercase digit) maps to `(p, e)`, and every other key maps to what it
mapped to before. -/
theorem PutStarcoinTxCheck_then_GetAll (c : Codec Event) (w : BoltDB) (h : String)
    (p : Bytes) (e : Event)
    (ho : w.check.Ordered) (hrt : c.CompositeRoundTrips)
    (hdec : ∀ kv ∈ w.check, c.CheckDecodable kv.2)
    (hput : (PutStarcoinTxCheck c w h p e).2 = none)
    (hlen : (PutStarcoinTxCheck c w h p e).1.check.length ≤ BOLTDB_MAX_NUM) :
    ∃ k m m', DecodeString h = .ok k ∧
      ((∀ ch ∈ h.data, ¬ (65 ≤ ch.toNat ∧ ch.toNat ≤ 70)) → EncodeToString k = h) ∧
      (GetAllStarcoinTxCheck c w).2 = .ok m ∧
      (GetAllStarcoinTxCheck c (PutStarcoinTxCheck c w h p e).1).2 = .ok m' ∧
      GoMap.get? (EncodeToString k) m' = some ⟨p, e⟩ ∧
      ∀ s, s ≠ EncodeToString k → GoMap.get? s m' = GoMap.get? s m := by
  obtain ⟨k, bs, hk, hm, hw'⟩ := PutStarcoinTxCheck_none c w h p e hput
  rw [hw'] at hlen ⊢
  simp only at hlen
  have ho' : (Bucket.insert k bs w.check).Ordered := Bucket.insert_ordered k bs _ ho
  have hbs : c.unmarshalBytesAndEvent bs = .ok ⟨p, e⟩ := hrt _ _ hm
  have hdec' : ∀ kv ∈ Bucket.insert k bs w.check, c.CheckDecodable kv.2 := by
    intro kv hkv
    rcases Bucket.mem_insert_cases k bs _ kv hkv with h1 | h1
    · subst h1; exact ⟨_, hbs⟩
    · exact hdec kv h1
  have hlen0 : w.check.length ≤ BOLTDB_MAX_NUM :=
    Nat.le_trans (Bucket.length_le_insert k bs w.check) hlen
  have ht : w.check.take BOLTDB_MAX_NUM = w.check := List.take_of_length_le hlen0
  have ht' : (Bucket.insert k bs w.check).take BOLTDB_MAX_NUM = Bucket.insert k bs w.check :=
    List.take_of_length_le hlen
  refine ⟨k, w.check.filterMap (checkEntry c),
    (Bucket.insert k bs w.check).filterMap (checkEntry c), hk,
    fun hl => EncodeToString_DecodeString h k hk hl, ?_, ?_, ?_, ?_⟩
  · rw [GetAllStarcoinTxCheck_take c w ho (by rw [ht]; exact hdec), ht]
  · rw [GetAllStarcoinTxCheck_take c _ ho' (by simp only; rw [ht']; exact hdec')]
    simp only
    rw [ht']
  · exact (get?_checkEntries c _ (Bucket.keys_nodup ho') _ _).2
      ⟨k, bs, (Bucket.mem_insert k bs _ k bs ho).2 (Or.inl ⟨rfl, rfl⟩), rfl, hbs⟩
  · intro s hs
    apply Option.ext
    intro ve
    simp only [Option.mem_def]
    rw [get?_checkEntries c _ (Bucket.keys_nodup ho'), get?_checkEntries c _ (Bucket.keys_nodup ho)]
    constructor
    · rintro ⟨j, u, hju, hsj, hu⟩
      rcases (Bucket.mem_insert k bs _ j u ho).1 hju with ⟨h1, _⟩ | ⟨_, h2⟩
      · exact absurd (h1 ▸ hsj) hs
      · exact ⟨j, u, h2, hsj, hu⟩
    · rintro ⟨j, u, hju, hsj, hu⟩
      have hjk : j ≠ k := fun hjk => hs (hjk ▸ hsj)
      exact ⟨j, u, (Bucket.mem_insert k bs _ j u ho).2 (Or.inr ⟨hjk, hju⟩), hsj, hu⟩

theorem PutStarcoinTxCheck_then_GetAll_witness :
    (GetAllStarcoinTxCheck sampleCodec
      (PutStarcoinTxCheck sampleCodec freshDB "aa11" [1, 2, 3] 1).1).2 =
        .ok [("aa11", ⟨[1, 2, 3], 1⟩)] ∧
    ∃ k m m', DecodeString "aa11" = .ok k ∧
      ((∀ ch ∈ "aa11".data, ¬ (65 ≤ ch.toNat ∧ ch.toNat ≤ 70)) → EncodeToString k = "aa11") ∧
      (GetAllStarcoinTxCheck sampleCodec sampleCheckDB).2 = .ok m ∧
      (GetAllStarcoinTxCheck sampleCodec
        (PutStarcoinTxCheck sampleCodec sampleCheckDB "aa11" [7, 8] 9).1).2 = .ok m' ∧
      GoMap.get? (EncodeToString k) m' = some ⟨[7, 8], 9⟩ ∧
      ∀ s, s ≠ EncodeToString k → GoMap.get? s m' = GoMap.get? s m :=
  ⟨rfl, PutStarcoinTxCheck_then_GetAll sampleCodec sampleCheckDB "aa11" [7, 8] 9
    (by decide) sampleCodec_compositeRoundTrips
    (by
      intro kv hkv
      simp only [sampleCheckDB, List.mem_cons, List.mem_singleton, List.not_mem_nil,
        or_false] at hkv
      rcases hkv with hkv | hkv <;> subst hkv <;> exact ⟨_, rfl⟩)
    rfl (by decide)⟩

/-! ## A listing that reaches the bound -/

/-- C2 as stated fails: with 1000 records in the CheckSet and 1000 in the
RetrySet the two listings return 1000 entries each and no error. -/
theorem GetAll_at_max_num_returns :
    fullDB.WF ∧ fullDB.check.length = 1000 ∧ fullDB.retry.length = 1000 ∧
    (∃ m, (GetAllStarcoinTxCheck sampleCodec fullDB).2 = .ok m ∧ m.len = 1000) ∧
    (∃ ks es, (GetAllStarcoinTxRetry sampleCodec fullDB).2 = .ok (ks, es) ∧
      ks.length = 1000 ∧ es.length = 1000) := by
  have hc : fullDB.check.take BOLTDB_MAX_NUM = sampleBucket 1000 :=
    List.take_of_length_le (by simp [fullDB, sampleBucket_length, BOLTDB_MAX_NUM])
  have hr : fullDB.retry.take BOLTDB_MAX_NUM = sampleBucket 1000 :=
    List.take_of_length_le (by simp [fullDB, sampleBucket_length, BOLTDB_MAX_NUM])
  refine ⟨fullDB_WF, sampleBucket_length 1000, sampleBucket_length 1000,
    ⟨(sampleBucket 1000).filterMap (checkEntry sampleCodec), ?_, ?_⟩,
    ⟨((sampleBucket 1000).filterMap (retryEntry sampleCodec)).map Prod.fst,
      ((sampleBucket 1000).filterMap (retryEntry sampleCodec)).map Prod.snd, ?_, ?_, ?_⟩⟩
  · rw [GetAllStarcoinTxCheck_take sampleCodec fullDB fullDB_WF.1
      (by rw [hc]; exact sampleBucket_checkDecodable 1000), hc]
  · rw [GoMap.len, checkEntries_length _ _ (sampleBucket_checkDecodable 1000),
      sampleBucket_length]
  · rw [GetAllStarcoinTxRetry_take sampleCodec fullDB
      (by rw [hr]; exact sampleBucket_retryDecodable 1000), hr]
  · rw [List.length_map, retryEntries_length _ _ (sampleBucket_retryDecodable 1000),
      sampleBucket_length]
  · rw [List.length_map, retryEntries_length _ _ (sampleBucket_retryDecodable 1000),
      sampleBucket_length]

/-- C2, amended: when the CheckSet (the RetrySet) holds 1000 or more records
and the first 1000 values deserialise, the enumeration stops with the
`max num` signal once 1000 entries are accumulated, and
`GetAllStarcoinTxCheck` (`GetAllStarcoinTxRetry`) returns exactly those first
1000 records, decoded, with no error. -/
theorem GetAll_stops_at_max_num (c : Codec Event) (w : BoltDB) (hw : w.WF) :
    (BOLTDB_MAX_NUM ≤ w.check.length →
      (∀ kv ∈ w.check.take BOLTDB_MAX_NUM, c.CheckDecodable kv.2) →
      (Bucket.ForEach (checkEach c) w.check []).2 = some .maxNum ∧
      (GetAllStarcoinTxCheck c w).2 =
        .ok ((w.check.take BOLTDB_MAX_NUM).filterMap (checkEntry c)) ∧
      ((w.check.take BOLTDB_MAX_NUM).filterMap (checkEntry c)).length = 1000) ∧
    (BOLTDB_MAX_NUM ≤ w.retry.length →
      (∀ kv ∈ w.retry.take BOLTDB_MAX_NUM, c.RetryDecodable kv.2) →
      (Bucket.ForEach (retryEach c) w.retry ([], [])).2 = some .maxNum ∧
      (GetAllStarcoinTxRetry c w).2 =
        .ok (((w.retry.take BOLTDB_MAX_NUM).filterMap (retryEntry c)).map Prod.fst,
          ((w.retry.take BOLTDB_MAX_NUM).filterMap (retryEntry c)).map Prod.snd) ∧
      ((w.retry.take BOLTDB_MAX_NUM).filterMap (retryEntry c)).length = 1000) := by
  constructor
  · intro hlen hdec
    refine ⟨checkLoop_flag c w.check hw.1 hlen hdec, ?_, ?_⟩
    · rw [GetAllStarcoinTxCheck_take c w hw.1 hdec]
    · rw [checkEntries_length c _ hdec, List.length_take]
      simp only [BOLTDB_MAX_NUM] at hlen ⊢
      omega
  · intro hlen hdec
    refine ⟨retryLoop_flag c w.retry hlen hdec, ?_, ?_⟩
    · rw [GetAllStarcoinTxRetry_take c w hdec]
    · rw [retryEntries_length c _ hdec, List.length_take]
      simp only [BOLTDB_MAX_NUM] at hlen ⊢
      omega

theorem GetAll_stops_at_max_num_witness :
    fullDB.WF ∧ BOLTDB_MAX_NUM ≤ fullDB.check.length ∧ BOLTDB_MAX_NUM ≤ fullDB.retry.length ∧
    ((Bucket.ForEach (checkEach sampleCodec) fullDB.check []).2 = some .maxNum ∧
      (GetAllStarcoinTxCheck sampleCodec fullDB).2 =
        .ok ((fullDB.check.take BOLTDB_MAX_NUM).filterMap (checkEntry sampleCodec)) ∧
      ((fullDB.check.take BOLTDB_MAX_NUM).filterMap (checkEntry sampleCodec)).length = 1000) ∧
    ((Bucket.ForEach (retryEach sampleCodec) fullDB.retry ([], [])).2 = some .maxNum ∧
      (GetAllStarcoinTxRetry sampleCodec fullDB).2 =
        .ok (((fullDB.retry.take BOLTDB_MAX_NUM).filterMap (retryEntry sampleCodec)).map Prod.fst,
          ((fullDB.retry.take BOLTDB_MAX_NUM).filterMap (retryEntry sampleCodec)).map Prod.snd) ∧
      ((fullDB.retry.take BOLTDB_MAX_NUM).filterMap (retryEntry sampleCodec)).length = 1000) :=
  have hl : BOLTDB_MAX_NUM ≤ (sampleBucket 1000).length := by
    rw [sampleBucket_length]; exact Nat.le_refl _
  ⟨fullDB_WF, hl, hl,
    (GetAll_stops_at_max_num sampleCodec fullDB fullDB_WF).1 hl
      (fun kv hkv => sampleBucket_checkDecodable 1000 kv (List.mem_of_mem_take hkv)),
    (GetAll_stops_at_max_num sampleCodec fullDB fullDB_WF).2 hl
      (fun kv hkv => sampleBucket_retryDecodable 1000 kv (List.mem_of_mem_take hkv))⟩

/-! ## Deleting a CheckSet record -/

/-- C6: for a valid hexadecimal `h` with decoded key `k`,
`DeleteStarcoinTxCheck(h)` after `PutStarcoinTxCheck(h, p, e)` returns no
error and removes exactly the record of `k` (which a successful Put had
stored) and no other; after any further sequence of calls that does not store
that record again the bucket has no record under `k`, and the mapping
`GetAllStarcoinTxCheck` returns has neither the key under which the record is
listed, the lowercase encoding of `k`, nor the text `h`.  Deleting a hash that
has no record returns no error and leaves the database as it was. -/
theorem DeleteStarcoinTxCheck_removes (c : Codec Event) (key : Bytes) (w : BoltDB)
    (h : String) (p : Bytes) (e : Event) (hw : w.WF) (hv : ValidHex h) :
    (∃ k, DecodeString h = .ok k ∧
      ((PutStarcoinTxCheck c w h p e).2 = none →
        ∃ v, (k, v) ∈ (PutStarcoinTxCheck c w h p e).1.check) ∧
      (DeleteStarcoinTxCheck (PutStarcoinTxCheck c w h p e).1 h).2 = none ∧
      (∀ j u, (j, u) ∈ (DeleteStarcoinTxCheck (PutStarcoinTxCheck c w h p e).1 h).1.check ↔
        j ≠ k ∧ (j, u) ∈ (PutStarcoinTxCheck c w h p e).1.check) ∧
      ∀ ops : List (Op Event), (∀ op ∈ ops, ¬ op.putsCheckKey k) →
        (∀ v, (k, v) ∉
          (runOps c key
            (DeleteStarcoinTxCheck (PutStarcoinTxCheck c w h p e).1 h).1 ops).check) ∧
        ∃ m, (GetAllStarcoinTxCheck c
          (runOps c key (DeleteStarcoinTxCheck (PutStarcoinTxCheck c w h p e).1 h).1 ops)).2 =
            .ok m ∧
          GoMap.get? (EncodeToString k) m = none ∧ GoMap.get? h m = none) ∧
    ((∀ k v, DecodeString h = .ok k → (k, v) ∉ w.check) →
      DeleteStarcoinTxCheck w h = (w, none)) := by
  obtain ⟨k, hk⟩ := DecodeString_of_valid hv
  constructor
  · have hw1 : (PutStarcoinTxCheck c w h p e).1.WF :=
      Op.apply_WF c key w hw (.putCheck h p e)
    refine ⟨k, hk, ?_, by rw [DeleteStarcoinTxCheck_ok _ h k hk], ?_, ?_⟩
    · intro hput
      obtain ⟨k', bs, hk', _, hw'⟩ := PutStarcoinTxCheck_none c w h p e hput
      rw [hk] at hk'
      have hkk : k = k' := Except.ok.inj hk'
      subst hkk
      rw [hw']
      exact ⟨bs, (Bucket.mem_insert k bs _ k bs hw.1).2 (Or.inl ⟨rfl, rfl⟩)⟩
    · intro j u
      rw [DeleteStarcoinTxCheck_ok _ h k hk]
      exact Bucket.mem_Delete k _ j u hw1.1
    · intro ops hops
      rw [DeleteStarcoinTxCheck_ok _ h k hk]
      have hw2 : BoltDB.WF { (PutStarcoinTxCheck c w h p e).1 with
          check := Bucket.Delete k (PutStarcoinTxCheck c w h p e).1.check } :=
        ⟨Bucket.Delete_ordered _ _ hw1.1, hw1.2.1, hw1.2.2⟩
      have habs : ∀ v, (k, v) ∉ Bucket.Delete k (PutStarcoinTxCheck c w h p e).1.check :=
        fun v hv' => ((Bucket.mem_Delete k _ k v hw1.1).1 hv').1 rfl
      have hrun := runOps_absent c key k ops _ hw2 habs hops
      exact ⟨hrun, GetAllStarcoinTxCheck_absent_key c _ h k hk hrun⟩
  · intro habs
    rw [DeleteStarcoinTxCheck_ok w h k hk, Bucket.Delete_absent k w.check (fun v => habs k v hk)]

theorem DeleteStarcoinTxCheck_removes_witness :
    (GetAllStarcoinTxCheck sampleCodec
      (DeleteStarcoinTxCheck
        (PutStarcoinTxCheck sampleCodec freshDB "aa11" [1, 2, 3] 1).1 "aa11").1).2 = .ok [] ∧
    (GetAllStarcoinTxCheck sampleCodec
      (DeleteStarcoinTxCheck
        (PutStarcoinTxCheck sampleCodec sampleCheckDB "AA11" [7, 8] 9).1 "AA11").1).2 =
          .ok [("bb22", ⟨[], 2⟩)] ∧
    (∃ k, DecodeString "AA11" = .ok k ∧
      ((PutStarcoinTxCheck sampleCodec sampleCheckDB "AA11" [7, 8] 9).2 = none →
        ∃ v, (k, v) ∈ (PutStarcoinTxCheck sampleCodec sampleCheckDB "AA11" [7, 8] 9).1.check) ∧
      (DeleteStarcoinTxCheck
        (PutStarcoinTxCheck sampleCodec sampleCheckDB "AA11" [7, 8] 9).1 "AA11").2 = none ∧
      (∀ j u, (j, u) ∈ (DeleteStarcoinTxCheck
          (PutStarcoinTxCheck sampleCodec sampleCheckDB "AA11" [7, 8] 9).1 "AA11").1.check ↔
        j ≠ k ∧ (j, u) ∈ (PutStarcoinTxCheck sampleCodec sampleCheckDB "AA11" [7, 8] 9).1.check) ∧
      ∀ ops : List (Op Byte), (∀ op ∈ ops, ¬ op.putsCheckKey k) →
        (∀ v, (k, v) ∉
          (runOps sampleCodec sampleHeightKey
            (DeleteStarcoinTxCheck
              (PutStarcoinTxCheck sampleCodec sampleCheckDB "AA11" [7, 8] 9).1 "AA11").1
            ops).check) ∧
        ∃ m, (GetAllStarcoinTxCheck sampleCodec
          (runOps sampleCodec sampleHeightKey
            (DeleteStarcoinTxCheck
              (PutStarcoinTxCheck sampleCodec sampleCheckDB "AA11" [7, 8] 9).1 "AA11").1
            ops)).2 = .ok m ∧
          GoMap.get? (EncodeToString k) m = none ∧ GoMap.get? "AA11" m = none) ∧
    ((∀ k v, DecodeString "AA11" = .ok k → (k, v) ∉ sampleCheckDB.check) →
      DeleteStarcoinTxCheck sampleCheckDB "AA11" = (sampleCheckDB, none)) :=
  ⟨rfl, rfl, DeleteStarcoinTxCheck_removes sampleCodec sampleHeightKey sampleCheckDB "AA11"
    [7, 8] 9 (by decide) (by decide)⟩

/-! ## The retry queue -/

/-- C9 as stated fails.  A non-empty key longer than `MaxKeySize` is refused by
the store, so after `PutStarcoinTxRetry` the key is not listed.  And behind a
record whose value does not deserialise nothing is listed (the dropped
decoding error of C7), so the key `[3, 4]` is missing after it was stored. -/
theorem PutStarcoinTxRetry_long_key_refused :
    sampleCodec.EventRoundTrips ∧ longKey ≠ [] ∧ freshDB.retry.length < 1000 ∧
    PutStarcoinTxRetry sampleCodec freshDB longKey 2 = (freshDB, some .ErrKeyTooLarge) ∧
    (GetAllStarcoinTxRetry sampleCodec
      (PutStarcoinTxRetry sampleCodec freshDB longKey 2).1).2 = .ok ([], []) ∧
    (corruptRetryDB.WF ∧ corruptRetryDB.retry.length < 1000 ∧
      (PutStarcoinTxRetry sampleCodec corruptRetryDB [3, 4] 2).2 = none ∧
      (GetAllStarcoinTxRetry sampleCodec
        (PutStarcoinTxRetry sampleCodec corruptRetryDB [3, 4] 2).1).2 = .ok ([[1, 2]], []) ∧
      ([3, 4] : Bytes) ∉ ([[1, 2]] : List Bytes)) := by
  have hne : longKey ≠ [] := by
    intro h
    have := longKey_length
    rw [h] at this
    simp at this
  have hput : PutStarcoinTxRetry sampleCodec freshDB longKey 2 =
      (freshDB, some .ErrKeyTooLarge) :=
    PutStarcoinTxRetry_tooLarge sampleCodec freshDB longKey 2 [2] rfl
      (by rw [longKey_length, MaxKeySize]; omega)
  refine ⟨sampleCodec_eventRoundTrips, hne, by decide, hput, ?_,
    by decide, by decide, rfl, rfl, by decide⟩
  rw [hput]
  rfl

/-- C9, amended: on a RetrySet with fewer than 1000 records whose values all
deserialise, a `PutStarcoinTxRetry(k, e)` that returns no error makes
`GetAllStarcoinTxRetry` return `k` exactly once among its keys with `e` at the
same index; after `DeleteStarcoinTxRetry(k)` the key is no longer listed. -/
theorem PutStarcoinTxRetry_then_GetAll (c : Codec Event) (w : BoltDB) (k : Bytes) (e : Event)
    (ho : w.retry.Ordered) (hrt : c.EventRoundTrips)
    (hlt : w.retry.length < BOLTDB_MAX_NUM)
    (hdec : ∀ kv ∈ w.retry, c.RetryDecodable kv.2)
    (hput : (PutStarcoinTxRetry c w k e).2 = none) :
    (∃ (ks : List Bytes) (es : List Event),
      (GetAllStarcoinTxRetry c (PutStarcoinTxRetry c w k e).1).2 = .ok (ks, es) ∧
      k ∈ ks ∧ ks.Nodup ∧ ks.length = es.length ∧
      ∀ i : Nat, ks[i]? = some k → es[i]? = some e) ∧
    (∃ ks es, (GetAllStarcoinTxRetry c
        (DeleteStarcoinTxRetry (PutStarcoinTxRetry c w k e).1 k).1).2 = .ok (ks, es) ∧
      k ∉ ks) := by
  obtain ⟨bs, hm, hw'⟩ := PutStarcoinTxRetry_none c w k e hput
  rw [hw']
  have ho' : (Bucket.insert k bs w.retry).Ordered := Bucket.insert_ordered k bs _ ho
  have hbs : c.unmarshalEvent bs = .ok e := hrt _ _ hm
  have hdec' : ∀ kv ∈ Bucket.insert k bs w.retry, c.RetryDecodable kv.2 := by
    intro kv hkv
    rcases Bucket.mem_insert_cases k bs _ kv hkv with h1 | h1
    · subst h1; exact ⟨_, hbs⟩
    · exact hdec kv h1
  have hlen : (Bucket.insert k bs w.retry).length ≤ BOLTDB_MAX_NUM := by
    have := Bucket.length_insert_le k bs w.retry
    omega
  have ht : (Bucket.insert k bs w.retry).take BOLTDB_MAX_NUM = Bucket.insert k bs w.retry :=
    List.take_of_length_le hlen
  constructor
  · refine ⟨((Bucket.insert k bs w.retry).filterMap (retryEntry c)).map Prod.fst,
      ((Bucket.insert k bs w.retry).filterMap (retryEntry c)).map Prod.snd, ?_, ?_, ?_, ?_, ?_⟩
    · rw [GetAllStarcoinTxRetry_take c _ (by simp only; rw [ht]; exact hdec')]
      simp only
      rw [ht]
    · rw [retryEntries_keys c _ hdec']
      exact List.mem_map_of_mem Prod.fst
        ((Bucket.mem_insert k bs _ k bs ho).2 (Or.inl ⟨rfl, rfl⟩))
    · rw [retryEntries_keys c _ hdec']
      exact Bucket.keys_nodup ho'
    · rw [List.length_map, List.length_map]
    · intro i hi
      rw [List.getElem?_map] at hi ⊢
      cases hq : ((Bucket.insert k bs w.retry).filterMap (retryEntry c))[i]? with
      | none => rw [hq] at hi; cases hi
      | some q =>
        rw [hq] at hi
        simp only [Option.map_some', Option.some.injEq] at hi ⊢
        obtain ⟨kv, hkv, h1, h2⟩ := (mem_retryEntries c _ q).1 (List.getElem?_mem hq)
        have hkv' : (kv.1, kv.2) ∈ Bucket.insert k bs w.retry := hkv
        rcases (Bucket.mem_insert k bs _ kv.1 kv.2 ho).1 hkv' with ⟨_, h4⟩ | ⟨h3, _⟩
        · rw [h4, hbs] at h2
          exact (Except.ok.inj h2).symm
        · exact absurd (h1.symm.trans hi) h3
  · refine ⟨_, _, by rw [GetAllStarcoinTxRetry_eq], ?_⟩
    intro hmem
    rcases retryLoop_keys c _ ([], []) k hmem with h1 | ⟨kv, hkv, h1⟩
    · simp at h1
    · rw [DeleteStarcoinTxRetry_eq] at hkv
      have hkv' : (kv.1, kv.2) ∈ Bucket.Delete k (Bucket.insert k bs w.retry) := hkv
      exact ((Bucket.mem_Delete k _ kv.1 kv.2 ho').1 hkv').1 h1.symm

theorem PutStarcoinTxRetry_then_GetAll_witness :
    (GetAllStarcoinTxRetry sampleCodec
      (PutStarcoinTxRetry sampleCodec freshDB [1, 2] 2).1).2 = .ok ([[1, 2]], [2]) ∧
    (GetAllStarcoinTxRetry sampleCodec
      (DeleteStarcoinTxRetry (PutStarcoinTxRetry sampleCodec freshDB [1, 2] 2).1 [1, 2]).1).2 =
        .ok ([], []) ∧
    (∃ (ks : List Bytes) (es : List Byte), (GetAllStarcoinTxRetry sampleCodec
        (PutStarcoinTxRetry sampleCodec freshDB [1, 2] 2).1).2 = .ok (ks, es) ∧
      [1, 2] ∈ ks ∧ ks.Nodup ∧ ks.length = es.length ∧
      ∀ i : Nat, ks[i]? = some [1, 2] → es[i]? = some 2) ∧
    (∃ ks es, (GetAllStarcoinTxRetry sampleCodec
        (DeleteStarcoinTxRetry
          (PutStarcoinTxRetry sampleCodec freshDB [1, 2] 2).1 [1, 2]).1).2 = .ok (ks, es) ∧
      [1, 2] ∉ ks) :=
  ⟨rfl, rfl, PutStarcoinTxRetry_then_GetAll sampleCodec freshDB [1, 2] 2 (by decide)
    sampleCodec_eventRoundTrips (by decide) (by simp [freshDB, NewBoltDB, DBFile.empty,
      CreateBucketIfNotExists]) rfl⟩

end Claims

/-! ## Each call changes its own collection only -/

section Frame

variable {Event : Type}

theorem PutStarcoinTxCheck_frame (c : Codec Event) (w : BoltDB) (txHash : String) (v : Bytes)
    (e : Event) :
    (PutStarcoinTxCheck c w txHash v e).1.retry = w.retry ∧
      (PutStarcoinTxCheck c w txHash v e).1.height = w.height := by
  rcases PutStarcoinTxCheck_cases c w txHash v e with h | ⟨k, bs, _, h⟩ <;> rw [h] <;>
    exact ⟨rfl, rfl⟩

theorem DeleteStarcoinTxCheck_frame (w : BoltDB) (txHash : String) :
    (DeleteStarcoinTxCheck w txHash).1.retry = w.retry ∧
      (DeleteStarcoinTxCheck w txHash).1.height = w.height := by
  rcases DeleteStarcoinTxCheck_cases w txHash with h | ⟨k, h⟩ <;> rw [h] <;> exact ⟨rfl, rfl⟩

theorem PutStarcoinTxRetry_frame (c : Codec Event) (w : BoltDB) (k : Bytes) (e : Event) :
    (PutStarcoinTxRetry c w k e).1.check = w.check ∧
      (PutStarcoinTxRetry c w k e).1.height = w.height := by
  rcases PutStarcoinTxRetry_cases c w k e with h | ⟨bs, h⟩ <;> rw [h] <;> exact ⟨rfl, rfl⟩

theorem UpdatePolyHeight_frame (key : Bytes) (w : BoltDB) (h : Nat) :
    (UpdatePolyHeight key w h).1.check = w.check ∧
      (UpdatePolyHeight key w h).1.retry = w.retry := by
  rcases UpdatePolyHeight_cases key w h with h' | ⟨bs, h'⟩ <;> rw [h'] <;> exact ⟨rfl, rfl⟩

/-- C16: `PutStarcoinTxCheck` and `DeleteStarcoinTxCheck` leave the RetrySet
and the HeightRegister unchanged, `PutStarcoinTxRetry` and
`DeleteStarcoinTxRetry` leave the CheckSet and the HeightRegister unchanged,
`UpdatePolyHeight` leaves the CheckSet and the RetrySet unchanged, and
`GetAllStarcoinTxCheck`, `GetAllStarcoinTxRetry` and `GetPolyHeight` leave the
whole database unchanged whatever they return, the two listings through a
write transaction that commits nothing new. -/
theorem calls_change_own_collection (c : Codec Event) (key : Bytes) (w : BoltDB) :
    (∀ txHash v e, (PutStarcoinTxCheck c w txHash v e).1.retry = w.retry ∧
      (PutStarcoinTxCheck c w txHash v e).1.height = w.height) ∧
    (∀ txHash, (DeleteStarcoinTxCheck w txHash).1.retry = w.retry ∧
      (DeleteStarcoinTxCheck w txHash).1.height = w.height) ∧
    (∀ k e, (PutStarcoinTxRetry c w k e).1.check = w.check ∧
      (PutStarcoinTxRetry c w k e).1.height = w.height) ∧
    (∀ k, (DeleteStarcoinTxRetry w k).1.check = w.check ∧
      (DeleteStarcoinTxRetry w k).1.height = w.height) ∧
    (∀ h, (UpdatePolyHeight key w h).1.check = w.check ∧
      (UpdatePolyHeight key w h).1.retry = w.retry) ∧
    (GetAllStarcoinTxCheck c w).1 = w ∧
    (GetAllStarcoinTxRetry c w).1 = w ∧
    (GetPolyHeight key w).1 = w ∧
    (Update w (fun tx => ((Bucket.ForEach (checkEach c) tx.check []).1, tx, none))).2.1 = w ∧
    (Update w (fun tx => ((Bucket.ForEach (retryEach c) tx.retry ([], [])).1, tx, none))).2.1 =
      w :=
  ⟨PutStarcoinTxCheck_frame c w, DeleteStarcoinTxCheck_frame w, PutStarcoinTxRetry_frame c w,
    fun _ => ⟨rfl, rfl⟩, UpdatePolyHeight_frame key w,
    by rw [GetAllStarcoinTxCheck_eq], by rw [GetAllStarcoinTxRetry_eq], GetPolyHeight_fst key w,
    rfl, rfl⟩

end Frame

/-! ## The extended interface is not implemented -/

theorem ExtOp.run_eq {T : ExtTypes} (w : BoltDB) (op : ExtOp T) :
    op.run w = (w, some .notImplemented) := by
  cases op <;> rfl

/-- C13: every method of the extended lifecycle interface, from
`GetPolyTxRetry` to `GetGasSubsidyCountByToAddress`, returns the
not-implemented error for every input and every database, with a nil or zero
value beside it where it has one (`-1` for the count), and leaves the database
unchanged. -/
theorem extended_interface_not_implemented (T : ExtTypes) (w : BoltDB) :
    (∀ txHash fromChainID,
      GetPolyTxRetry T w txHash fromChainID = (w, none, some .notImplemented)) ∧
    GetAllPolyTxRetry T w = (w, [], some .notImplemented) ∧
    (∀ txHash fromChainID,
      DeletePolyTxRetry w txHash fromChainID = (w, some .notImplemented)) ∧
    (∀ tx, PutPolyTxRetry T w tx = (w, some .notImplemented)) ∧
    (∀ txHash fromChainID oldCount,
      IncreasePolyTxRetryCheckFeeCount w txHash fromChainID oldCount =
        (w, some .notImplemented)) ∧
    (∀ txHash fromChainID status,
      SetPolyTxRetryFeeStatus w txHash fromChainID status = (w, some .notImplemented)) ∧
    (∀ txHash fromChainID status msg,
      UpdatePolyTxStarcoinStatus w txHash fromChainID status msg =
        (w, some .notImplemented)) ∧
    (∀ txHash fromChainID, GetPolyTx T w txHash fromChainID = (w, none, some .notImplemented)) ∧
    (∀ tx, PutPolyTx T w tx = (w, 0, some .notImplemented)) ∧
    (∀ tx, RemovePolyTx T w tx = (w, some .notImplemented)) ∧
    (∀ id, PushBackRemovePolyTx w id = (w, some .notImplemented)) ∧
    (∀ idx, UpdatePolyTxNonMembershipProofByIndex w idx = (w, some .notImplemented)) ∧
    (∀ txHash fromChainID oldStatus status,
      SetPolyTxStatus w txHash fromChainID oldStatus status = (w, some .notImplemented)) ∧
    (∀ txHash fromChainID oldStatus,
      SetPolyTxStatusProcessing w txHash fromChainID oldStatus = (w, some .notImplemented)) ∧
    (∀ txHash fromChainID starcoinTxHash,
      SetProcessingPolyTxStarcoinTxHash w txHash fromChainID starcoinTxHash =
        (w, some .notImplemented)) ∧
    (∀ txHash fromChainID oldStatus starcoinTxHash,
      SetPolyTxStatusProcessed w txHash fromChainID oldStatus starcoinTxHash =
        (w, some .notImplemented)) ∧
    GetFirstFailedPolyTx T w = (w, none, some .notImplemented) ∧
    GetFirstTimedOutPolyTx T w = (w, none, some .notImplemented) ∧
    GetFirstPolyTxToBeRemoved T w = (w, none, some .notImplemented) ∧
    GetFirstRemovedPolyTxToBePushedBack T w = (w, none, some .notImplemented) ∧
    GetTimedOutOrFailedPolyTxList T w = (w, [], some .notImplemented) ∧
    (∀ fromChainId updatedAfter,
      GetPolyTxListNotHaveGasSubsidy T w fromChainId updatedAfter =
        (w, [], some .notImplemented)) ∧
    (∀ gasSubsidy, PutGasSubsidy T w gasSubsidy = (w, some .notImplemented)) ∧
    GetFirstNotSentGasSubsidy T w = (w, none, some .notImplemented) ∧
    GetFirstTimedOutGasSubsidy T w = (w, none, some .notImplemented) ∧
    GetFirstFailedGasSubsidy T w = (w, none, some .notImplemented) ∧
    (∀ txHash fromChainID oldStatus starcoinTxHash senderAddress senderSeqNum,
      SetGasSubsidyStarcoinTxInfo w txHash fromChainID oldStatus starcoinTxHash senderAddress
        senderSeqNum = (w, some .notImplemented)) ∧
    (∀ txHash fromChainID oldStatus,
      SetGasSubsidyStatusProcessed w txHash fromChainID oldStatus =
        (w, some .notImplemented)) ∧
    (∀ txHash fromChainID oldStatus status,
      SetGasSubsidyStatus w txHash fromChainID oldStatus status = (w, some .notImplemented)) ∧
    (∀ toAddress, GetGasSubsidyCountByToAddress w toAddress = (w, -1, some .notImplemented)) ∧
    (∀ op : ExtOp T, op.run w = (w, some .notImplemented)) ∧
    (some Error.notImplemented ≠ none) :=
  ⟨fun _ _ => rfl, rfl, fun _ _ => rfl, fun _ => rfl, fun _ _ _ => rfl, fun _ _ _ => rfl,
    fun _ _ _ _ => rfl, fun _ _ => rfl, fun _ => rfl, fun _ => rfl, fun _ => rfl, fun _ => rfl,
    fun _ _ _ _ => rfl, fun _ _ _ => rfl, fun _ _ _ => rfl, fun _ _ _ _ => rfl, rfl, rfl, rfl,
    rfl, rfl, fun _ _ => rfl, fun _ => rfl, rfl, rfl, rfl, fun _ _ _ _ _ _ => rfl,
    fun _ _ _ => rfl, fun _ _ _ _ => rfl, fun _ => rfl, ExtOp.run_eq w,
    fun h => Option.noConfusion h⟩

/-! ## Opening a database twice -/

theorem NewBoltDB.init_eq (f : DBFile) :
    NewBoltDB.init f = ((NewBoltDB f).toFile, .ok (NewBoltDB f)) := by
  cases f
  rfl

/-- C12: for every content of the database file the three transactions of
`NewBoltDB` succeed, whether or not any of the three buckets exists;
afterwards all three exist, a bucket that existed keeps exactly its entries
and a missing one is empty; opening the file again gives the same database
and leaves the file as it is. -/
theorem NewBoltDB_idempotent (f : DBFile) :
    (NewBoltDB.init f).2 = .ok (NewBoltDB f) ∧
    (NewBoltDB.init f).1 = ⟨some (NewBoltDB f).check, some (NewBoltDB f).retry,
      some (NewBoltDB f).height⟩ ∧
    (NewBoltDB f).check = f.check.getD [] ∧
    (NewBoltDB f).retry = f.retry.getD [] ∧
    (NewBoltDB f).height = f.height.getD [] ∧
    NewBoltDB.init (NewBoltDB.init f).1 = NewBoltDB.init f ∧
    (∀ w : BoltDB, NewBoltDB.init w.toFile = (w.toFile, .ok w)) := by
  refine ⟨by rw [NewBoltDB.init_eq], by rw [NewBoltDB.init_eq]; rfl, ?_, ?_, ?_, ?_, ?_⟩
  · cases f with
    | mk a b c => cases a <;> rfl
  · cases f with
    | mk a b c => cases b <;> rfl
  · cases f with
    | mk a b c => cases c <;> rfl
  · rw [NewBoltDB.init_eq, NewBoltDB.init_eq]
    rfl
  · intro w
    rw [NewBoltDB.init_eq]
    rfl

/-! ## The path of the database file -/

theorem hasPrefix_iff : ∀ (a p : List Char), hasPrefix a p = true ↔ ∃ r, a = p ++ r
  | a, [] => by
    cases a <;> simp [hasPrefix]
  | [], q :: ps => by simp [hasPrefix]
  | c :: cs, q :: ps => by
    simp only [hasPrefix, Bool.and_eq_true, decide_eq_true_eq, List.cons_append,
      List.cons.injEq, hasPrefix_iff cs ps]
    constructor
    · rintro ⟨h1, r, h2⟩
      exact ⟨r, h1, h2⟩
    · rintro ⟨r, h1, h2⟩
      exact ⟨h1, r, h2⟩

theorem containsChars_of_hasPrefix {a substr : List Char} (h : hasPrefix a substr = true) :
    containsChars a substr = true := by
  cases a with
  | nil => simpa [containsChars] using h
  | cons c cs => simp [containsChars, h]

theorem containsChars_append_left (substr : List Char) : ∀ t : List Char,
    containsChars (t ++ substr) substr = true
  | [] => containsChars_of_hasPrefix ((hasPrefix_iff _ _).2 ⟨[], by simp⟩)
  | c :: t => by
    simp only [List.cons_append, containsChars, Bool.or_eq_true]
    exact Or.inr (containsChars_append_left substr t)

theorem Contains_of_HasSuffix {s suffix : String} (h : HasSuffix s suffix = true) :
    Contains s suffix = true := by
  unfold HasSuffix at h
  obtain ⟨r, hr⟩ := (hasPrefix_iff _ _).1 h
  have hs : s.data = r.reverse ++ suffix.data := by
    have := congrArg List.reverse hr
    simpa using this
  unfold Contains
  rw [hs]
  exact containsChars_append_left _ _

/-- C11 as stated fails: the path `/data/relayer.bin.d` does not end in
`.bin`, yet `NewBoltDB` opens it as it is and not `bolt.bin` inside it. -/
theorem NewBoltDB_opens_path_containing_bin :
    HasSuffix "/data/relayer.bin.d" ".bin" = false ∧
    NewBoltDB.filePath "/data/relayer.bin.d" = "/data/relayer.bin.d" ∧
    Join "/data/relayer.bin.d" "bolt.bin" = "/data/relayer.bin.d/bolt.bin" ∧
    NewBoltDB.filePath "/data/relayer.bin.d" ≠ Join "/data/relayer.bin.d" "bolt.bin" := by
  decide

/-- C11, amended: `NewBoltDB` opens the supplied path itself when the text
`.bin` occurs anywhere in it, in particular when it ends in `.bin`, and opens
`path.Join(p, "bolt.bin")` when `.bin` does not occur in it. -/
theorem NewBoltDB_filePath_spec (p : String) :
    (Contains p ".bin" = true → NewBoltDB.filePath p = p) ∧
    (HasSuffix p ".bin" = true → NewBoltDB.filePath p = p) ∧
    (Contains p ".bin" = false → NewBoltDB.filePath p = Join p "bolt.bin") := by
  refine ⟨?_, ?_, ?_⟩
  · intro h
    simp [NewBoltDB.filePath, h]
  · intro h
    simp [NewBoltDB.filePath, Contains_of_HasSuffix h]
  · intro h
    simp [NewBoltDB.filePath, h]

theorem NewBoltDB_filePath_spec_witness :
    NewBoltDB.filePath "/data/relayer.bin" = "/data/relayer.bin" ∧
    NewBoltDB.filePath "/data/relayer" = "/data/relayer/bolt.bin" ∧
    NewBoltDB.filePath "/data/relayer" = Join "/data/relayer" "bolt.bin" :=
  ⟨(NewBoltDB_filePath_spec "/data/relayer.bin").2.1 (by decide), by decide,
    (NewBoltDB_filePath_spec "/data/relayer").2.2 (by decide)⟩

/-! ## The letter case of a transaction hash -/

section LetterCase

variable {Event : Type}

theorem fromHexChar_ofNat_upper : ∀ n, n < 91 → 65 ≤ n →
    fromHexChar (Char.ofNat (n + 32)) = fromHexChar (Char.ofNat n) := by
  decide

theorem fromHexChar_toLower (ch : Char) : fromHexChar ch.toLower = fromHexChar ch := by
  unfold Char.toLower
  simp only
  split_ifs with h
  · have := fromHexChar_ofNat_upper ch.toNat (by omega) (by omega)
    rw [Char.ofNat_toNat] at this
    exact this
  · rfl

theorem hexDecode_map_toLower : ∀ (l : List Char) (k : Bytes), hexDecode l = .ok k →
    hexDecode (l.map Char.toLower) = .ok k
  | [], k, h => by simpa [hexDecode] using h
  | [p], k, h => by
    simp only [hexDecode] at h
    split at h <;> cases h
  | p :: q :: rest, k, h => by
    simp only [hexDecode] at h
    split at h
    · cases h
    · rename_i a ha
      split at h
      · cases h
      · rename_i b hb
        split at h
        · rename_i bs hbs
          cases h
          have ih := hexDecode_map_toLower rest bs hbs
          simp only [List.map_cons, hexDecode, fromHexChar_toLower, ha, hb, ih]
        · cases h

theorem DecodeString_sameUpToCase {h1 h2 : String} (hv1 : ValidHex h1) (hv2 : ValidHex h2)
    (hs : SameUpToCase h1 h2) : DecodeString h1 = DecodeString h2 := by
  obtain ⟨k1, hk1⟩ := DecodeString_of_valid hv1
  obtain ⟨k2, hk2⟩ := DecodeString_of_valid hv2
  have e1 := hexDecode_map_toLower h1.data k1 hk1
  have e2 := hexDecode_map_toLower h2.data k2 hk2
  unfold SameUpToCase at hs
  rw [hs, e2] at e1
  rw [hk1, hk2, Except.ok.inj e1]

/-- C17: two valid hexadecimal hashes that differ only in the case of their
letters decode to the same key, so `PutStarcoinTxCheck` and
`DeleteStarcoinTxCheck` do the same with either; and every key of the mapping
`GetAllStarcoinTxCheck` returns is the encoding of a stored key in lowercase
hexadecimal digits. -/
theorem CheckSet_keys_case_insensitive (c : Codec Event) (w : BoltDB) (h1 h2 : String)
    (hv1 : ValidHex h1) (hv2 : ValidHex h2) (hs : SameUpToCase h1 h2) :
    DecodeString h1 = DecodeString h2 ∧
    (∀ v e, PutStarcoinTxCheck c w h1 v e = PutStarcoinTxCheck c w h2 v e) ∧
    DeleteStarcoinTxCheck w h1 = DeleteStarcoinTxCheck w h2 ∧
    (∃ m, (GetAllStarcoinTxCheck c w).2 = .ok m ∧
      ∀ p ∈ m, (∃ kv ∈ w.check, p.1 = EncodeToString kv.1) ∧
        ∀ ch ∈ p.1.data,
          (48 ≤ ch.toNat ∧ ch.toNat ≤ 57) ∨ (97 ≤ ch.toNat ∧ ch.toNat ≤ 102)) := by
  have hd := DecodeString_sameUpToCase hv1 hv2 hs
  refine ⟨hd, ?_, ?_, _, by rw [GetAllStarcoinTxCheck_eq], ?_⟩
  · intro v e
    simp only [PutStarcoinTxCheck, hd]
  · simp only [DeleteStarcoinTxCheck, hd]
  · intro p hp
    rcases checkLoop_keys c w.check [] p hp with h | ⟨kv, hkv, hk⟩
    · simp at h
    · refine ⟨⟨kv, hkv, hk⟩, ?_⟩
      intro ch hch
      rw [hk] at hch
      exact hexEncode_lower kv.1 ch hch

theorem CheckSet_keys_case_insensitive_witness :
    (GetAllStarcoinTxCheck sampleCodec
      (PutStarcoinTxCheck sampleCodec freshDB "AA11" [1, 2, 3] 1).1).2 =
        .ok [("aa11", ⟨[1, 2, 3], 1⟩)] ∧
    (GetAllStarcoinTxCheck sampleCodec
      (DeleteStarcoinTxCheck
        (PutStarcoinTxCheck sampleCodec freshDB "aa11" [1, 2, 3] 1).1 "AA11").1).2 = .ok [] ∧
    DecodeString "AA11" = DecodeString "aa11" ∧
    (∀ v e, PutStarcoinTxCheck sampleCodec sampleCheckDB "AA11" v e =
      PutStarcoinTxCheck sampleCodec sampleCheckDB "aa11" v e) ∧
    DeleteStarcoinTxCheck sampleCheckDB "AA11" = DeleteStarcoinTxCheck sampleCheckDB "aa11" ∧
    (∃ m, (GetAllStarcoinTxCheck sampleCodec sampleCheckDB).2 = .ok m ∧
      ∀ p ∈ m, (∃ kv ∈ sampleCheckDB.check, p.1 = EncodeToString kv.1) ∧
        ∀ ch ∈ p.1.data,
          (48 ≤ ch.toNat ∧ ch.toNat ≤ 57) ∨ (97 ≤ ch.toNat ∧ ch.toNat ≤ 102)) :=
  ⟨rfl, rfl, CheckSet_keys_case_insensitive sampleCodec sampleCheckDB "AA11" "aa11"
    (by decide) (by decide) (by decide)⟩

end LetterCase

/-! ## The order of the retry keys -/

section RetryOrder

variable {Event : Type}

/-- C18: when every RetrySet value deserialises, the keys
`GetAllStarcoinTxRetry` returns are the first `min(n, 1000)` keys of the bucket
in its order, `n` the number of records: they ascend strictly in
`bytes.Compare` order, none occurs twice, and every stored key that is left
out is greater than all of them. -/
theorem GetAllStarcoinTxRetry_keys_ascending (c : Codec Event) (w : BoltDB)
    (ho : w.retry.Ordered) (hdec : ∀ kv ∈ w.retry, c.RetryDecodable kv.2) :
    ∃ (ks : List Bytes) (es : List Event),
      (GetAllStarcoinTxRetry c w).2 = .ok (ks, es) ∧
      ks = (w.retry.map Prod.fst).take BOLTDB_MAX_NUM ∧
      ks.length = min w.retry.length 1000 ∧
      List.Pairwise (fun a b => bytesCompare a b = .lt) ks ∧
      ks.Nodup ∧
      (∀ a ∈ ks, ∀ b ∈ (w.retry.map Prod.fst).drop BOLTDB_MAX_NUM,
        bytesCompare a b = .lt) := by
  have hdec' : ∀ kv ∈ w.retry.take BOLTDB_MAX_NUM, c.RetryDecodable kv.2 :=
    fun kv hkv => hdec kv (List.mem_of_mem_take hkv)
  have hpw : List.Pairwise (fun a b => bytesCompare a b = .lt) (w.retry.map Prod.fst) := by
    rw [List.pairwise_map]
    exact ho
  have hsplit := List.take_append_drop BOLTDB_MAX_NUM (w.retry.map Prod.fst)
  rw [← hsplit, List.pairwise_append] at hpw
  refine ⟨_, _, by rw [GetAllStarcoinTxRetry_take c w hdec'], ?_, ?_, ?_, ?_, ?_⟩
  · rw [retryEntries_keys c _ hdec', List.map_take]
  · rw [retryEntries_keys c _ hdec', List.length_map, List.length_take]
    simp only [BOLTDB_MAX_NUM]
    exact Nat.min_comm _ _
  · rw [retryEntries_keys c _ hdec', List.map_take]
    exact hpw.1
  · rw [retryEntries_keys c _ hdec', List.map_take]
    exact (List.take_sublist _ _).nodup (Bucket.keys_nodup ho)
  · rw [retryEntries_keys c _ hdec', List.map_take]
    exact hpw.2.2

theorem GetAllStarcoinTxRetry_keys_ascending_witness :
    overfullDB.retry.length = 1500 ∧
    (∃ (ks : List Bytes) (es : List Byte),
      (GetAllStarcoinTxRetry sampleCodec overfullDB).2 = .ok (ks, es) ∧
      ks = (overfullDB.retry.map Prod.fst).take BOLTDB_MAX_NUM ∧
      ks.length = min overfullDB.retry.length 1000 ∧
      List.Pairwise (fun a b => bytesCompare a b = .lt) ks ∧
      ks.Nodup ∧
      (∀ a ∈ ks, ∀ b ∈ (overfullDB.retry.map Prod.fst).drop BOLTDB_MAX_NUM,
        bytesCompare a b = .lt)) :=
  ⟨sampleBucket_length 1500,
    GetAllStarcoinTxRetry_keys_ascending sampleCodec overfullDB
      (sampleBucket_ordered 1500 (by norm_num)) (sampleBucket_retryDecodable 1500)⟩

end RetryOrder

/-! ## The height register along every sequence of calls -/

section HeightRegister

variable {Event : Type} {T : ExtTypes}

theorem UpdatePolyHeight_height_cases (key : Bytes) (w : BoltDB) (h : Nat) :
    (UpdatePolyHeight key w h).1.height = w.height ∨
      (UpdatePolyHeight key w h).1.height =
        Bucket.insert key (PutUint32 (h % 4294967296)) w.height := by
  unfold UpdatePolyHeight
  simp only [Update]
  cases hp : (Bucket.Put w.height key (PutUint32 (h % 4294967296))).2 with
  | some err => exact Or.inl rfl
  | none => exact Or.inr (by simp only [(Bucket.Put_none hp).1])

theorem Op.apply_height_of_op (c : Codec Event) (key : Bytes) (w : BoltDB) :
    ∀ op : Op Event, (op.apply c key w).height =
      match op with
      | .updatePolyHeight h => (UpdatePolyHeight key w h).1.height
      | _ => w.height
  | .putCheck txHash v e => (PutStarcoinTxCheck_frame c w txHash v e).2
  | .deleteCheck txHash => (DeleteStarcoinTxCheck_frame w txHash).2
  | .getAllCheck => rfl
  | .putRetry k e => (PutStarcoinTxRetry_frame c w k e).2
  | .deleteRetry _ => rfl
  | .getAllRetry => rfl
  | .updatePolyHeight _ => rfl
  | .getPolyHeight => by
    simp only [Op.apply, GetPolyHeight_fst]

theorem Call.apply_height (c : Codec Event) (key : Bytes) (w : BoltDB) :
    ∀ call : Call Event T, (call.apply c key w).height =
      match call.height? with
      | some h => (UpdatePolyHeight key w h).1.height
      | none => w.height
  | .extended op => by
    simp only [Call.apply, Call.height?, ExtOp.run_eq]
  | .working op => by
    have := Op.apply_height_of_op c key w op
    cases op <;> exact this

theorem Bucket.insert_single (key v v' : Bytes) (b : Bucket)
    (hb : b = [] ∨ b = [(key, v)]) : Bucket.insert key v' b = [(key, v')] := by
  rcases hb with hb | hb <;> subst hb
  · rfl
  · simp only [Bucket.insert, bytesCompare_self]

theorem Call.apply_height_single (c : Codec Event) (key : Bytes) (w : BoltDB)
    (hw : w.height = [] ∨ ∃ h, w.height = [(key, PutUint32 (h % 4294967296))])
    (call : Call Event T) :
    (call.apply c key w).height = [] ∨
      ∃ h, (call.apply c key w).height = [(key, PutUint32 (h % 4294967296))] := by
  rw [Call.apply_height]
  cases call.height? with
  | none => exact hw
  | some h =>
    simp only
    rcases UpdatePolyHeight_height_cases key w h with h1 | h1
    · rw [h1]; exact hw
    · rw [h1]
      right
      refine ⟨h, ?_⟩
      rcases hw with hw | ⟨h0, hw⟩
      · exact Bucket.insert_single key [] _ _ (Or.inl hw)
      · exact Bucket.insert_single key _ _ _ (Or.inr hw)

theorem runCalls_height_single (c : Codec Event) (key : Bytes) :
    ∀ (calls : List (Call Event T)) (w : BoltDB),
      (w.height = [] ∨ ∃ h, w.height = [(key, PutUint32 (h % 4294967296))]) →
      ((runCalls c key w calls).height = [] ∨
        ∃ h, (runCalls c key w calls).height = [(key, PutUint32 (h % 4294967296))])
  | [], _, hw => hw
  | call :: calls, w, hw =>
    runCalls_height_single c key calls _ (Call.apply_height_single c key w hw call)

theorem runCalls_height_last (c : Codec Event) (key : Bytes) (hk : key ≠ [])
    (hk2 : key.length ≤ MaxKeySize) :
    ∀ (calls : List (Call Event T)) (w : BoltDB),
      (w.height = [] ∨ ∃ h, w.height = [(key, PutUint32 (h % 4294967296))]) →
      (runCalls c key w calls).height =
        match lastHeight calls with
        | some h => [(key, PutUint32 (h % 4294967296))]
        | none => w.height
  | [], _, _ => rfl
  | call :: calls, w, hw => by
    have ih := runCalls_height_last c key hk hk2 calls (call.apply c key w)
      (Call.apply_height_single c key w hw call)
    simp only [runCalls, lastHeight]
    rw [ih]
    cases lastHeight calls with
    | some h => rfl
    | none =>
      simp only
      rw [Call.apply_height]
      cases call.height? with
      | none => rfl
      | some h =>
        simp only
        rw [UpdatePolyHeight_eq key w h hk hk2]
        rcases hw with hw | ⟨h0, hw⟩
        · exact Bucket.insert_single key [] _ _ (Or.inl hw)
        · exact Bucket.insert_single key _ _ _ (Or.inr hw)

theorem GetPolyHeight_single (key : Bytes) (w : BoltDB) (h : Nat)
    (hw : w.height = [(key, PutUint32 (h % 4294967296))]) :
    (GetPolyHeight key w).2 = .ok (h % 4294967296) := by
  simp only [GetPolyHeight, View, hw, Bucket.Get, bytesCompare_self]
  rw [if_neg (by simp [PutUint32])]
  exact Uint32_PutUint32 _ (Nat.mod_lt _ (by norm_num))

theorem GetPolyHeight_empty (key : Bytes) (w : BoltDB) (hw : w.height = []) :
    (GetPolyHeight key w).2 = .ok 0 := by
  simp only [GetPolyHeight, View, hw, Bucket.Get]

/-- C15: after any sequence of calls of the public methods on a freshly
initialised database the Height bucket is empty or holds one pair, under the
height key, whose value is four bytes; `GetPolyHeight` returns a number and
does not fault.  With a height key the store accepts, that value is the
little-endian encoding of the argument of the most recent `UpdatePolyHeight`
and `GetPolyHeight` returns that argument (0 before the first update). -/
theorem height_register_invariant (c : Codec Event) (T : ExtTypes) (key : Bytes)
    (calls : List (Call Event T)) :
    ((runCalls c key freshDB calls).height.length ≤ 1 ∧
      ∀ kv ∈ (runCalls c key freshDB calls).height, kv.1 = key ∧ kv.2.length = 4) ∧
    (∃ n, (GetPolyHeight key (runCalls c key freshDB calls)).2 = .ok n) ∧
    (key ≠ [] → key.length ≤ MaxKeySize →
      (runCalls c key freshDB calls).height =
        (match lastHeight calls with
          | some h => [(key, PutUint32 (h % 4294967296))]
          | none => []) ∧
      (GetPolyHeight key (runCalls c key freshDB calls)).2 =
        .ok (match lastHeight calls with
          | some h => h % 4294967296
          | none => 0)) := by
  have hinv := runCalls_height_single (T := T) c key calls freshDB (Or.inl rfl)
  refine ⟨?_, ?_, ?_⟩
  · rcases hinv with h0 | ⟨h, h1⟩
    · rw [h0]; simp
    · rw [h1]
      refine ⟨Nat.le_refl _, ?_⟩
      intro kv hkv
      simp only [List.mem_singleton] at hkv
      subst hkv
      exact ⟨rfl, rfl⟩
  · rcases hinv with h0 | ⟨h, h1⟩
    · exact ⟨0, GetPolyHeight_empty key _ h0⟩
    · exact ⟨_, GetPolyHeight_single key _ h h1⟩
  · intro hk hk2
    have hlast := runCalls_height_last (T := T) c key hk hk2 calls freshDB (Or.inl rfl)
    refine ⟨by rw [hlast]; rfl, ?_⟩
    cases hl : lastHeight calls with
    | none =>
      rw [hl] at hlast
      exact GetPolyHeight_empty key _ hlast
    | some h =>
      rw [hl] at hlast
      exact GetPolyHeight_single key _ h hlast

theorem height_register_invariant_witness :
    (runCalls sampleCodec sampleHeightKey freshDB sampleCalls).height =
      [(sampleHeightKey, [7, 0, 0, 0])] ∧
    (GetPolyHeight sampleHeightKey
      (runCalls sampleCodec sampleHeightKey freshDB sampleCalls)).2 = .ok 7 ∧
    ((runCalls sampleCodec sampleHeightKey freshDB sampleCalls).height =
        (match lastHeight sampleCalls with
          | some h => [(sampleHeightKey, PutUint32 (h % 4294967296))]
          | none => []) ∧
      (GetPolyHeight sampleHeightKey
        (runCalls sampleCodec sampleHeightKey freshDB sampleCalls)).2 =
        .ok (match lastHeight sampleCalls with
          | some h => h % 4294967296
          | none => 0)) :=
  ⟨rfl, rfl,
    (height_register_invariant sampleCodec sampleExtTypes sampleHeightKey sampleCalls).2.2
      (by decide) (by decide)⟩

end HeightRegister

end BoltRelayer
